import Mathlib

/-!
A shallow embedding of `scripts/chain_certificates.py` (the certificate
chain builder of the certificate-AUTH repository) and proofs about it.

The embedding models:
  * the Python string helpers the script uses (`str.strip`, `str.lower`,
    `x or y` on strings),
  * `_normalize_date` (CPython `datetime.strptime(s, "%Y-%m-%d")` followed
    by `strftime("%Y-%m-%d")`),
  * `_is_hex64` (length check plus CPython `int(s, 16)` parsing),
  * `_concat_fields` and `_sha256_hex` (a full executable SHA-256),
  * the row-processing loop of `chain_certificates`, including the
    per-row enrichment (verification URL, QR URL, QR download) and the
    post-loop artifact writes (CSV, JSON, hash index), with external
    side effects reified as an ordered event trace.

Strings are treated at the level of Unicode code points (Lean `Char`),
which matches CPython `str`.  Where CPython behaviour on exotic Unicode
input differs from the ASCII-faithful model used here (e.g. `str.strip`
stripping non-ASCII whitespace, `int` accepting non-ASCII decimal
digits), the divergence is noted at the definition; all inputs relevant
to the claims are ASCII.
-/

namespace CertChain

/-! ## Python string primitives -/

/-- Characters stripped by Python `str.strip()` (ASCII whitespace:
space, tab, newline, carriage return, vertical tab, form feed; given
by code point).  CPython also strips non-ASCII Unicode whitespace; not
modelled. -/
def isPyWhitespace (c : Char) : Bool :=
  c.toNat = 32 || c.toNat = 9 || c.toNat = 10 || c.toNat = 13 || c.toNat = 11 || c.toNat = 12

/-- Python `str.strip()`: remove leading and trailing whitespace. -/
def pyStrip (s : String) : String :=
  ⟨(s.data.dropWhile isPyWhitespace).reverse.dropWhile isPyWhitespace |>.reverse⟩

/-- Lower-case one character, ASCII range (Python `str.lower` restricted
to ASCII; the script only lower-cases hash candidates). -/
def pyLowerChar (c : Char) : Char :=
  if 65 ≤ c.toNat ∧ c.toNat ≤ 90 then Char.ofNat (c.toNat + 32) else c

/-- Python `str.lower()` (ASCII-faithful). -/
def pyLower (s : String) : String :=
  ⟨s.data.map pyLowerChar⟩

/-- Python `a or b` on strings: `b` when `a` is empty (falsy), else `a`. -/
def pyOr (a b : String) : String :=
  if a = "" then b else a

/-- Python `s.rstrip('/')`: drop all trailing slash characters. -/
def pyRstripSlash (s : String) : String :=
  ⟨(s.data.reverse.dropWhile (· = '/')).reverse⟩

/-- `_trim` of the script: `(value or "").strip()`.  Absent CSV values
(`None`) are modelled as the empty string, which `_trim` sends to the
same result. -/
def trim (value : String) : String := pyStrip value

/-! ## `_normalize_date`: CPython `strptime`/`strftime` with `%Y-%m-%d`

CPython `_strptime` compiles `%Y-%m-%d` to the regex
`(?P<Y>\d\d\d\d)-(?P<m>1[0-2]|0[1-9]|[1-9])-(?P<d>3[01]|[12]\d|0[1-9]|[1-9])`
which must match the whole string; the matched numbers are then passed
to the `datetime` constructor, which rejects year 0 and days beyond the
month length.  `strftime("%Y-%m-%d")` (glibc) renders the year without
padding and month/day zero-padded to two digits. -/

def isAsciiDigit (c : Char) : Bool := '0' ≤ c ∧ c ≤ '9'

def digitVal (c : Char) : Nat := c.toNat - 48

/-- Match the day group `3[01]|[12]\d|0[1-9]|[1-9]` against the whole
remaining character list. -/
def matchDay : List Char → Option Nat
  | [c1, c2] =>
    if c1 = '3' ∧ (c2 = '0' ∨ c2 = '1') then some (30 + digitVal c2)
    else if (c1 = '1' ∨ c1 = '2') ∧ isAsciiDigit c2 then
      some (10 * digitVal c1 + digitVal c2)
    else if c1 = '0' ∧ ('1' ≤ c2 ∧ c2 ≤ '9') then some (digitVal c2)
    else none
  | [c] => if '1' ≤ c ∧ c ≤ '9' then some (digitVal c) else none
  | _ => none

/-- Match `-(day)` against the whole remaining list. -/
def matchDashDay : List Char → Option Nat
  | '-' :: rest => matchDay rest
  | _ => none

/-- Match `(month)-(day)` against the whole remaining list, with the
regex's backtracking: the two-digit month alternatives are tried first,
falling back to the one-digit `[1-9]` alternative. -/
def matchMonthDashDay : List Char → Option (Nat × Nat)
  | c1 :: c2 :: rest =>
    let twoDigit : Option Nat :=
      if c1 = '1' ∧ (c2 = '0' ∨ c2 = '1' ∨ c2 = '2') then
        some (10 + digitVal c2)
      else if c1 = '0' ∧ ('1' ≤ c2 ∧ c2 ≤ '9') then some (digitVal c2)
      else none
    (match twoDigit, matchDashDay rest with
     | some m, some d => some (m, d)
     | _, _ =>
       if '1' ≤ c1 ∧ c1 ≤ '9' then
         match matchDashDay (c2 :: rest) with
         | some d => some (digitVal c1, d)
         | none => none
       else none)
  | _ => none

/-- Match the full pattern `\d{4}-(month)-(day)` against the whole
string, returning `(year, month, day)`. -/
def matchYMD (l : List Char) : Option (Nat × Nat × Nat) :=
  match l with
  | y1 :: y2 :: y3 :: y4 :: '-' :: rest =>
    if isAsciiDigit y1 ∧ isAsciiDigit y2 ∧ isAsciiDigit y3 ∧ isAsciiDigit y4 then
      match matchMonthDashDay rest with
      | some (m, d) =>
        some (1000 * digitVal y1 + 100 * digitVal y2 + 10 * digitVal y3 + digitVal y4, m, d)
      | none => none
    else none
  | _ => none

def isLeapYear (y : Nat) : Bool :=
  (y % 4 = 0 ∧ y % 100 ≠ 0) ∨ y % 400 = 0

def daysInMonth (y m : Nat) : Nat :=
  if m = 2 then (if isLeapYear y then 29 else 28)
  else if m = 4 ∨ m = 6 ∨ m = 9 ∨ m = 11 then 30
  else 31

/-- Zero-pad a number to two digits (strftime `%m` / `%d`). -/
def pad2 (n : Nat) : String :=
  if n < 10 then "0" ++ toString n else toString n

/-- `strftime("%Y-%m-%d")`: the year is rendered without padding (glibc
behaviour for years below 1000), month and day zero-padded. -/
def renderDate (y m d : Nat) : String :=
  toString y ++ "-" ++ pad2 m ++ "-" ++ pad2 d

/-- `_normalize_date`: strip, parse as `%Y-%m-%d`, re-render; `none`
models the raised `ValueError`.  The `datetime` constructor's own
checks (year ≥ 1, day within month length) are applied after the
regex match. -/
def normalizeDate (value : String) : Option String :=
  let s := trim value
  match matchYMD s.data with
  | some (y, m, d) =>
    if 1 ≤ y ∧ d ≤ daysInMonth y m then some (renderDate y m d) else none
  | none => none

/-! ## `_is_hex64`: CPython `int(s, 16)` parsing

`int(s, 16)` strips whitespace, then accepts an optional sign, an
optional `0x`/`0X` prefix, and a nonempty run of hex digits in which
single underscores may appear between digits or directly after the
prefix.  (CPython additionally accepts non-ASCII Unicode decimal
digits; not modelled.)  As a consequence `_is_hex64` accepts 64-character
strings such as `"0x" + 62 hex digits` or `"+" + 63 hex digits` that are
not 64 hex digits. -/

def isHexDigitChar (c : Char) : Bool :=
  (48 ≤ c.toNat ∧ c.toNat ≤ 57) || (97 ≤ c.toNat ∧ c.toNat ≤ 102) ||
    (65 ≤ c.toNat ∧ c.toNat ≤ 70)

/-- Scan a digit run with single underscores between digits.
`needDigit = true` means the next character must be a hex digit. -/
def scanDigits : Bool → List Char → Bool
  | needDigit, [] => !needDigit
  | needDigit, c :: rest =>
    if c = '_' then
      if needDigit then false else scanDigits true rest
    else
      isHexDigitChar c && scanDigits false rest

/-- The digit part after an optional `0x`/`0X` prefix; a leading
underscore is allowed directly after the prefix. -/
def scanAfterPrefix : List Char → Bool
  | '_' :: rest => scanDigits true rest
  | l => scanDigits true l

/-- Drop an optional leading sign. -/
def stripSign (l : List Char) : List Char :=
  match l with
  | c :: rest => if c = '+' ∨ c = '-' then rest else l
  | [] => l

/-- The digit part with an optional `0x`/`0X` prefix. -/
def checkBody (l : List Char) : Bool :=
  match l with
  | c :: x :: rest =>
    if c = '0' ∧ (x = 'x' ∨ x = 'X') then scanAfterPrefix rest
    else scanDigits true (c :: x :: rest)
  | _ => scanDigits true l

/-- `int(s, 16)` succeeds (ASCII-faithful model). -/
def pyIntBase16Ok (s : String) : Bool :=
  checkBody (stripSign (pyStrip s).data)

/-- `_is_hex64`: strip, require length 64, require `int(s, 16)` to
parse. -/
def isHex64 (s : String) : Bool :=
  let t := pyStrip s
  if t.length = 64 then pyIntBase16Ok t else false

/-! ## SHA-256 (FIPS 180-4) over UTF-8 bytes -/

/-- UTF-8 encoding of one code point. -/
def utf8Char (c : Char) : List Nat :=
  let n := c.toNat
  if n < 0x80 then [n]
  else if n < 0x800 then
    [0xC0 ||| (n >>> 6), 0x80 ||| (n &&& 0x3F)]
  else if n < 0x10000 then
    [0xE0 ||| (n >>> 12), 0x80 ||| ((n >>> 6) &&& 0x3F), 0x80 ||| (n &&& 0x3F)]
  else
    [0xF0 ||| (n >>> 18), 0x80 ||| ((n >>> 12) &&& 0x3F),
     0x80 ||| ((n >>> 6) &&& 0x3F), 0x80 ||| (n &&& 0x3F)]

/-- UTF-8 encoding of a string as a byte list (`s.encode("utf-8")`). -/
def utf8 (s : String) : List Nat :=
  (s.data.map utf8Char).flatten

def w32 (n : Nat) : Nat := n % 4294967296

def rotr (n x : Nat) : Nat := w32 ((x >>> n) ||| (x <<< (32 - n)))

/-- The 64 SHA-256 round constants (FIPS 180-4, in decimal). -/
def sha256K : List Nat :=
  [1116352408, 1899447441, 3049323471, 3921009573, 961987163, 1508970993,
   2453635748, 2870763221, 3624381080, 310598401, 607225278, 1426881987,
   1925078388, 2162078206, 2614888103, 3248222580, 3835390401, 4022224774,
   264347078, 604807628, 770255983, 1249150122, 1555081692, 1996064986,
   2554220882, 2821834349, 2952996808, 3210313671, 3336571891, 3584528711,
   113926993, 338241895, 666307205, 773529912, 1294757372, 1396182291,
   1695183700, 1986661051, 2177026350, 2456956037, 2730485921, 2820302411,
   3259730800, 3345764771, 3516065817, 3600352804, 4094571909, 275423344,
   430227734, 506948616, 659060556, 883997877, 958139571, 1322822218,
   1537002063, 1747873779, 1955562222, 2024104815, 2227730452, 2361852424,
   2428436474, 2756734187, 3204031479, 3329325298]

/-- The initial SHA-256 hash state (FIPS 180-4, in decimal). -/
def sha256H0 : List Nat :=
  [1779033703, 3144134277, 1013904242, 2773480762,
   1359893119, 2600822924, 528734635, 1541459225]

/-- Big-endian 8-byte encoding of a (bit-length) number. -/
def be64 (n : Nat) : List Nat :=
  [(n >>> 56) &&& 255, (n >>> 48) &&& 255, (n >>> 40) &&& 255,
   (n >>> 32) &&& 255, (n >>> 24) &&& 255, (n >>> 16) &&& 255,
   (n >>> 8) &&& 255, n &&& 255]

/-- SHA-256 padding: append `0x80`, zeros to 56 mod 64, then the
bit length as 8 big-endian bytes. -/
def sha256Pad (msg : List Nat) : List Nat :=
  let len := msg.length
  let zeros := (120 - ((len + 1) % 64)) % 64
  msg ++ [0x80] ++ List.replicate zeros 0 ++ be64 (8 * len)

/-- Pack bytes into big-endian 32-bit words. -/
def toWords : List Nat → List Nat
  | a :: b :: c :: d :: rest =>
    ((a <<< 24) ||| (b <<< 16) ||| (c <<< 8) ||| d) :: toWords rest
  | _ => []

/-- Extend the 16 block words to the 64-word message schedule. -/
def extendSchedule : List Nat → Nat → List Nat
  | acc, 0 => acc
  | acc, k + 1 =>
    let i := acc.length
    let w15 := acc.getD (i - 15) 0
    let w2 := acc.getD (i - 2) 0
    let s0 := (rotr 7 w15) ^^^ (rotr 18 w15) ^^^ (w15 >>> 3)
    let s1 := (rotr 17 w2) ^^^ (rotr 19 w2) ^^^ (w2 >>> 10)
    extendSchedule (acc ++ [w32 (acc.getD (i - 16) 0 + s0 + acc.getD (i - 7) 0 + s1)]) k

/-- One compression round; the state is the register list `[a,...,h]`. -/
def round (st : List Nat) (kw : Nat × Nat) : List Nat :=
  let a := st.getD 0 0
  let b := st.getD 1 0
  let c := st.getD 2 0
  let d := st.getD 3 0
  let e := st.getD 4 0
  let f := st.getD 5 0
  let g := st.getD 6 0
  let h := st.getD 7 0
  let s1 := (rotr 6 e) ^^^ (rotr 11 e) ^^^ (rotr 25 e)
  let ch := (e &&& f) ^^^ ((0xffffffff ^^^ e) &&& g)
  let t1 := w32 (h + s1 + ch + kw.1 + kw.2)
  let s0 := (rotr 2 a) ^^^ (rotr 13 a) ^^^ (rotr 22 a)
  let mj := (a &&& b) ^^^ (a &&& c) ^^^ (b &&& c)
  let t2 := w32 (s0 + mj)
  [w32 (t1 + t2), a, b, c, w32 (d + t1), e, f, g]

/-- Compress one 64-byte block into the hash state. -/
def sha256Block (h : List Nat) (block : List Nat) : List Nat :=
  let ws := extendSchedule (toWords block) 48
  let st := (sha256K.zip ws).foldl round h
  (h.zip st).map fun p => w32 (p.1 + p.2)

/-- Process `n` consecutive 64-byte blocks. -/
def sha256Blocks (h : List Nat) : Nat → List Nat → List Nat
  | 0, _ => h
  | n + 1, msg => sha256Blocks (sha256Block h (msg.take 64)) n (msg.drop 64)

/-- SHA-256 of a byte list: the eight 32-bit state words. -/
def sha256 (msg : List Nat) : List Nat :=
  let padded := sha256Pad msg
  sha256Blocks sha256H0 (padded.length / 64) padded

/-- Lowercase hex digit for a nibble. -/
def hexChar (n : Nat) : Char :=
  if n < 10 then Char.ofNat (48 + n) else Char.ofNat (87 + n % 16)

/-- A 32-bit word as 8 lowercase hex characters. -/
def wordHex (w : Nat) : List Char :=
  [hexChar ((w >>> 28) &&& 15), hexChar ((w >>> 24) &&& 15),
   hexChar ((w >>> 20) &&& 15), hexChar ((w >>> 16) &&& 15),
   hexChar ((w >>> 12) &&& 15), hexChar ((w >>> 8) &&& 15),
   hexChar ((w >>> 4) &&& 15), hexChar (w &&& 15)]

/-- `_sha256_hex`: SHA-256 of the UTF-8 encoding, as lowercase hex. -/
def sha256Hex (s : String) : String :=
  ⟨((sha256 (utf8 s)).map wordHex).flatten⟩

/-- `_concat_fields`: the fixed pipe-delimited template. -/
def concatFields (certId name title dateIssued previousHash : String) : String :=
  certId ++ "|" ++ name ++ "|" ++ title ++ "|" ++ dateIssued ++ "|" ++ previousHash

/-! ## Data model of `chain_certificates` -/

/-- `GENESIS_HASH = "0" * 64`. -/
def GENESIS_HASH : String := String.mk (List.replicate 64 '0')

/-- `REQUIRED_COLUMNS` of the script. -/
def REQUIRED_COLUMNS : List String :=
  ["CertID", "RecipientName", "CourseTitle", "DateIssued", "PreviousHash", "CurrentHash"]

/-- One input CSV row (`csv.DictReader` row restricted to the columns
the script reads; a missing/`None` value is the empty string, which
`_trim` treats identically).  The input `CurrentHash` column is carried
but never read by the script. -/
structure InputRow where
  certID : String
  recipientName : String
  courseTitle : String
  dateIssued : String
  previousHash : String
  currentHash : String
deriving DecidableEq, Repr

/-- One output record (`output_row` dict of the script).  The three
enrichment fields are `none` when the corresponding key is absent. -/
structure Record where
  certID : String
  recipientName : String
  courseTitle : String
  dateIssued : String
  previousHash : String
  currentHash : String
  verificationURL : Option String := none
  qrCodeURL : Option String := none
  qrCodePath : Option String := none
deriving DecidableEq, Repr

/-- The fatal errors the build can raise (`FileNotFoundError` for a
missing input file is outside the row-processing model).  Each
constructor carries exactly the data interpolated into the raised
exception's message; note that `invalidDate` carries no row index,
because `_normalize_date` raises before the loop body can attach one. -/
inductive ChainError where
  | missingColumns (missing : List String)
  | emptyInput
  | invalidDate (strippedValue : String)
  | invalidPrevHash (rowIndex : Nat) (value : String)
  | duplicateHash (rowIndex : Nat) (hash : String)
deriving DecidableEq, Repr

/-- Python `repr` of a list of strings, as interpolated into the
missing-columns message. -/
def pyListRepr (l : List String) : String :=
  "[" ++ String.intercalate ", " (l.map fun s => "\x27" ++ s ++ "\x27") ++ "]"

/-- The exact exception message raised for each error (`rowIndex` is
the zero-based loop index; the messages show `i + 2`, accounting for
the CSV header line). -/
def ChainError.message : ChainError → String
  | .missingColumns missing =>
      "Input CSV missing required columns: " ++ pyListRepr missing
  | .emptyInput => "Input CSV has no data rows"
  | .invalidDate s =>
      "DateIssued must be ISO format YYYY-MM-DD, got: \x27" ++ s ++ "\x27"
  | .invalidPrevHash i v =>
      "Row " ++ toString (i + 2) ++ ": Invalid PreviousHash (must be 64 hex chars): \x27"
        ++ v ++ "\x27"
  | .duplicateHash i h =>
      "Duplicate CurrentHash detected at row " ++ toString (i + 2) ++ ": " ++ h
        ++ ". Input data must be unique."

/-- The configuration arguments of `chain_certificates` that affect the
row loop and the artifact writes. -/
structure Config where
  outputPath : String
  jsonPath : Option String := none
  indexPath : Option String := none
  baseUrl : Option String := none
  qrDir : Option String := none
  qrSize : Nat := 180
  addQrUrl : Bool := false
  qrAbsolute : Bool := false
deriving Repr

/-- External side effects of one build, in execution order.
`downloadQR` is the `urllib.request.urlretrieve` call made during the
row loop; the three `write*` events are the post-loop artifact writes. -/
inductive Effect where
  | downloadQR (url : String) (path : String)
  | writeCSV (path : String)
  | writeJSON (path : String)
  | writeIndex (path : String)
deriving DecidableEq, Repr

def Effect.isDownload : Effect → Bool
  | .downloadQR _ _ => true
  | _ => false

/-! ## Enrichment (`_build_qr_url`, verification URL, QR download) -/

/-- A byte that `urllib.parse.quote_plus` leaves unescaped: ASCII
letters, digits, `_`, `.`, `-`, `~`. -/
def quoteSafe (b : Nat) : Bool :=
  (48 ≤ b ∧ b ≤ 57) || (65 ≤ b ∧ b ≤ 90) || (97 ≤ b ∧ b ≤ 122) ||
    b = 95 || b = 46 || b = 45 || b = 126

/-- Uppercase hex digit (percent-encoding uses uppercase). -/
def hexCharUpper (n : Nat) : Char :=
  if n < 10 then Char.ofNat (48 + n) else Char.ofNat (55 + n % 16)

/-- `urllib.parse.quote_plus` on one UTF-8 byte. -/
def quotePlusByte (b : Nat) : List Char :=
  if quoteSafe b then [Char.ofNat b]
  else if b = 32 then ['+']
  else ['%', hexCharUpper ((b >>> 4) &&& 15), hexCharUpper (b &&& 15)]

/-- `urllib.parse.quote_plus` of a string. -/
def quotePlus (s : String) : String :=
  ⟨((utf8 s).map quotePlusByte).flatten⟩

/-- `urllib.parse.urlencode({"data": data, "size": f"{size}x{size}"})`. -/
def urlencodeDataSize (data : String) (size : Nat) : String :=
  "data=" ++ quotePlus data ++ "&size="
    ++ quotePlus (toString size ++ "x" ++ toString size)

/-- `_build_qr_url`. -/
def buildQrUrl (data : String) (size : Nat) : String :=
  "https://api.qrserver.com/v1/create-qr-code/?" ++ urlencodeDataSize data size

/-- `f"{n:03d}"`: zero-pad to at least three digits. -/
def pad3 (n : Nat) : String :=
  let s := toString n
  if s.length < 3 then String.mk (List.replicate (3 - s.length) '0') ++ s else s

/-- `os.path.join(d, f)` for a nonempty directory and a relative file
name (the only shape the script produces). -/
def pathJoin (d f : String) : String :=
  if d = "" then f
  else if d.data.getLast? = some '/' then d ++ f
  else d ++ "/" ++ f

/-- The enrichment block of the loop body (source lines 166-188): adds
`VerificationURL`, `QRCodeURL` and `QRCodePath` to the record and
performs the QR download.  `qrOk i` abstracts whether the download for
row `i` succeeds (the script swallows the failure and prints a
warning); `abspath` abstracts `os.path.abspath`.  The download attempt
is recorded as an event whether or not it succeeds. -/
def enrichRow (cfg : Config) (abspath : String → String) (qrOk : Nat → Bool)
    (i : Nat) (r : Record) : List Effect × Record :=
  match cfg.baseUrl with
  | none => ([], r)
  | some b =>
    let vu := pyRstripSlash b ++ "/?hash=" ++ r.currentHash
    let r1 := { r with verificationURL := some vu }
    let r2 := if cfg.addQrUrl then { r1 with qrCodeURL := some (buildQrUrl vu cfg.qrSize) } else r1
    match cfg.qrDir with
    | none => ([], r2)
    | some d =>
      let qrFilename := if r.certID ≠ "" then r.certID ++ ".png" else pad3 (i + 1) ++ ".png"
      let qrPath := pathJoin d qrFilename
      let r3 := if qrOk i then
          { r2 with qrCodePath := some (if cfg.qrAbsolute then abspath qrPath else qrPath) }
        else r2
      ([Effect.downloadQR (buildQrUrl vu cfg.qrSize) qrPath], r3)

/-! ## The row loop and the build -/

/-- The validation-and-hash part of one loop iteration (source lines
122-164): trim the text fields, normalize the date, lower-case and
validate the previous-hash candidate, compute the SHA-256 link hash,
and reject duplicates against the `seen_hashes` set. -/
def stepRow (i : Nat) (row : InputRow) (prevCandidate : String)
    (seen : List String) : Except ChainError Record :=
  let certId := trim row.certID
  let name := trim row.recipientName
  let title := trim row.courseTitle
  match normalizeDate row.dateIssued with
  | none => .error (.invalidDate (trim row.dateIssued))
  | some dateIssued =>
    let previousHash := pyLower prevCandidate
    if isHex64 previousHash then
      let currentHash := sha256Hex (concatFields certId name title dateIssued previousHash)
      if currentHash ∈ seen then .error (.duplicateHash i currentHash)
      else .ok { certID := certId, recipientName := name, courseTitle := title,
                 dateIssued := dateIssued, previousHash := previousHash,
                 currentHash := currentHash }
    else .error (.invalidPrevHash i previousHash)

/-- The previous-hash candidate of one iteration: for the first row
(`prevCur = none`) the row's own `PreviousHash` column, afterwards the
previous record's `CurrentHash`; in both cases `_trim(x) or
GENESIS_HASH` (source lines 129-136). -/
def candOf (prevCur : Option String) (row : InputRow) : String :=
  pyOr (trim (match prevCur with | none => row.previousHash | some c => c)) GENESIS_HASH

/-- The row loop.  `prevCur` is `none` for the first row and `some c`
afterwards, where `c` is the previous record's `CurrentHash`.  Events
of each iteration's enrichment are emitted in order. -/
def buildLoop (cfg : Config) (abspath : String → String) (qrOk : Nat → Bool) :
    Nat → List String → Option String → List InputRow →
      List Effect × Except ChainError (List Record)
  | _, _, _, [] => ([], .ok [])
  | i, seen, prevCur, row :: rest =>
    match stepRow i row (candOf prevCur row) seen with
    | .error e => ([], .error e)
    | .ok rec =>
      let er := enrichRow cfg abspath qrOk i rec
      let br := buildLoop cfg abspath qrOk (i + 1) (rec.currentHash :: seen) (some rec.currentHash) rest
      (er.1 ++ br.1,
       match br.2 with
       | .error e => .error e
       | .ok recs => .ok (er.2 :: recs))

/-- A successful build's value: the output records, the output CSV
column list, and the hash index (`{row["CurrentHash"]: i}`, modelled
as the association list in insertion order; the hashes are pairwise
distinct, so dict and association-list lookup agree). -/
structure BuildOutput where
  records : List Record
  outFieldnames : List String
  index : List (String × Nat)
deriving DecidableEq, Repr

/-- The post-loop output column list. -/
def outFieldnamesOf (cfg : Config) : List String :=
  REQUIRED_COLUMNS
    ++ (if cfg.baseUrl.isSome then ["VerificationURL"] else [])
    ++ (if cfg.addQrUrl then ["QRCodeURL"] else [])
    ++ (if cfg.qrDir.isSome then ["QRCodePath"] else [])

/-- The hash index built from the output records. -/
def buildIndex (recs : List Record) : List (String × Nat) :=
  (List.range recs.length).zip recs |>.map fun p => (p.2.currentHash, p.1)

/-- The post-loop artifact writes, in source order: chained CSV, then
JSON export (if requested), then hash index (if requested). -/
def writeEvents (cfg : Config) : List Effect :=
  [Effect.writeCSV cfg.outputPath]
    ++ (match cfg.jsonPath with | some p => [Effect.writeJSON p] | none => [])
    ++ (match cfg.indexPath with | some p => [Effect.writeIndex p] | none => [])

/-- `chain_certificates` (rows already read from the CSV): column
check, empty check, row loop, then the artifact writes.  The returned
event list is the ordered trace of external side effects; on a fatal
error it contains only the enrichment events of the rows processed
before the failure, and no artifact is written. -/
def chainCertificates (cfg : Config) (abspath : String → String) (qrOk : Nat → Bool)
    (fieldnames : List String) (rows : List InputRow) :
    List Effect × Except ChainError BuildOutput :=
  let missing := REQUIRED_COLUMNS.filter (fun c => !(fieldnames.contains c))
  if missing ≠ [] then ([], .error (.missingColumns missing))
  else if rows = [] then ([], .error .emptyInput)
  else
    let br := buildLoop cfg abspath qrOk 0 [] none rows
    match br.2 with
    | .error e => (br.1, .error e)
    | .ok recs =>
      (br.1 ++ writeEvents cfg,
       .ok { records := recs, outFieldnames := outFieldnamesOf cfg,
             index := buildIndex recs })

/-- The record list of a build under the default configuration (no
enrichment); enrichment never changes the six chained fields, so the
claims about the chain itself are stated over `chainCertificates`
with arbitrary configuration. -/
def chainRecords (rows : List InputRow) : Except ChainError (List Record) :=
  (chainCertificates { outputPath := "out.csv" } id (fun _ => true)
    REQUIRED_COLUMNS rows).2.map (·.records)

/-! ## Claim-side predicates and concrete fixtures -/

/-- A lowercase hex digit `0-9`/`a-f` (by code point).  This is the
character class the specification means by "hexadecimal character" in
its description of `previous_hash` values. -/
def isPlainHexDigit (c : Char) : Bool :=
  (48 ≤ c.toNat ∧ c.toNat ≤ 57) || (97 ≤ c.toNat ∧ c.toNat ≤ 102)

/-- The specification's previous-hash format: exactly 64 characters,
each a hexadecimal digit `0-9`/`a-f`.  Stated from the spec's words,
to be compared with the source's `_is_hex64`. -/
def plainHex64 (s : String) : Bool :=
  s.length = 64 && s.data.all isPlainHexDigit

/-- The shape of every value `_sha256_hex` can return (and of the
genesis constant): 64 characters, all lowercase hex digits. -/
def shaShaped (s : String) : Prop :=
  s.length = 64 ∧ ∀ c ∈ s.data, isPlainHexDigit c = true

/-- An input row with `PreviousHash` stripped, used to state that the
build never consults the supplied `PreviousHash` of a non-first row. -/
def scrubPrev (row : InputRow) : InputRow :=
  { row with previousHash := "" }

/-- Concrete fixtures used by witnesses and counterexamples. -/
def rowA : InputRow :=
  { certID := "C1", recipientName := "Alice", courseTitle := "Course A",
    dateIssued := "2024-01-10", previousHash := "", currentHash := "" }

def rowB : InputRow :=
  { certID := "C2", recipientName := "Bob", courseTitle := "Course B",
    dateIssued := "2024-02-01", previousHash := "ignored", currentHash := "" }

/-- A row whose `DateIssued` fails `%Y-%m-%d` parsing. -/
def rowBadDate : InputRow :=
  { certID := "C3", recipientName := "Cara", courseTitle := "Course C",
    dateIssued := "2024-13-01", previousHash := "", currentHash := "" }

/-- A first row supplying `PreviousHash = "0x" + 62 zeros`: 64
characters, not 64 hex digits, yet accepted by `int(s, 16)`. -/
def rowHexPrefix : InputRow :=
  { rowA with previousHash := "0x" ++ String.mk (List.replicate 62 '0') }

def hashA : String := "e63f6fc96556ac041c006d803b8780ec268261a229c95145ac1e7cd68d331de5"

def hashB : String := "6cc7f8b42cdb227ebc0702d99fef8b5dcc2d4774298171b8ea3f6f99fc0e0b95"

def recA : Record :=
  { certID := "C1", recipientName := "Alice", courseTitle := "Course A",
    dateIssued := "2024-01-10", previousHash := GENESIS_HASH, currentHash := hashA }

def recB : Record :=
  { certID := "C2", recipientName := "Bob", courseTitle := "Course B",
    dateIssued := "2024-02-01", previousHash := hashA, currentHash := hashB }

def cfgPlain : Config := { outputPath := "out.csv" }

/-- A configuration with all artifacts and enrichment enabled. -/
def cfgFull : Config :=
  { outputPath := "o.csv", jsonPath := some "c.json", indexPath := some "h.json",
    baseUrl := some "https://ex.org/v/", qrDir := some "qr" }

def outAB : BuildOutput :=
  { records := [recA, recB], outFieldnames := REQUIRED_COLUMNS,
    index := [(hashA, 0), (hashB, 1)] }

/-- The download-succeeds oracle used by the concrete fixtures. -/
def qrAll : Nat → Bool := fun _ => true

/-- The QR-service URL the enrichment requests for `recA` under
`cfgFull`. -/
def urlQRA : String :=
  "https://api.qrserver.com/v1/create-qr-code/?data=https%3A%2F%2Fex.org%2Fv%2F%3Fhash%3De63f6fc96556ac041c006d803b8780ec268261a229c95145ac1e7cd68d331de5&size=180x180"

/-- The QR-service URL the enrichment requests for `recB` under
`cfgFull`. -/
def urlQRB : String :=
  "https://api.qrserver.com/v1/create-qr-code/?data=https%3A%2F%2Fex.org%2Fv%2F%3Fhash%3D6cc7f8b42cdb227ebc0702d99fef8b5dcc2d4774298171b8ea3f6f99fc0e0b95&size=180x180"

/-! ## Character and string shape lemmas -/

theorem isPlainHexDigit_iff {c : Char} :
    isPlainHexDigit c = true ↔ (48 ≤ c.toNat ∧ c.toNat ≤ 57) ∨ (97 ≤ c.toNat ∧ c.toNat ≤ 102) := by
  simp [isPlainHexDigit, decide_eq_true_iff]

theorem isPlainHexDigit_not_ws {c : Char} (h : isPlainHexDigit c = true) :
    isPyWhitespace c = false := by
  rw [isPlainHexDigit_iff] at h
  simp only [isPyWhitespace, Bool.or_eq_false_iff, decide_eq_false_iff_not]
  omega

theorem isPlainHexDigit_lower {c : Char} (h : isPlainHexDigit c = true) :
    pyLowerChar c = c := by
  rw [isPlainHexDigit_iff] at h
  rw [pyLowerChar, if_neg]
  omega

theorem isPlainHexDigit_hexDigit {c : Char} (h : isPlainHexDigit c = true) :
    isHexDigitChar c = true := by
  rw [isPlainHexDigit_iff] at h
  simp only [isHexDigitChar, Bool.or_eq_true, decide_eq_true_iff]
  omega

theorem isPlainHexDigit_ne_underscore {c : Char} (h : isPlainHexDigit c = true) : c ≠ '_' := by
  intro hc
  subst hc
  exact absurd h (by decide)

theorem isPlainHexDigit_ne_plus {c : Char} (h : isPlainHexDigit c = true) : c ≠ '+' := by
  intro hc
  subst hc
  exact absurd h (by decide)

theorem isPlainHexDigit_ne_minus {c : Char} (h : isPlainHexDigit c = true) : c ≠ '-' := by
  intro hc
  subst hc
  exact absurd h (by decide)

theorem isPlainHexDigit_ne_x {c : Char} (h : isPlainHexDigit c = true) : c ≠ 'x' := by
  intro hc
  subst hc
  exact absurd h (by decide)

theorem isPlainHexDigit_ne_X {c : Char} (h : isPlainHexDigit c = true) : c ≠ 'X' := by
  intro hc
  subst hc
  exact absurd h (by decide)

theorem dropWhile_eq_self_of {p : Char → Bool} {l : List Char}
    (h : ∀ c ∈ l, p c = false) : l.dropWhile p = l := by
  cases l with
  | nil => rfl
  | cons c rest =>
    rw [List.dropWhile_cons, if_neg]
    simp [h c (by simp)]

theorem pyStrip_eq_self {s : String} (h : ∀ c ∈ s.data, isPyWhitespace c = false) :
    pyStrip s = s := by
  cases s with
  | mk data =>
    simp only [pyStrip]
    rw [dropWhile_eq_self_of h, dropWhile_eq_self_of, List.reverse_reverse]
    intro c hc
    exact h c (by simpa using hc)

theorem pyLower_eq_self {s : String} (h : ∀ c ∈ s.data, pyLowerChar c = c) :
    pyLower s = s := by
  cases s with
  | mk data =>
    simp only [pyLower]
    congr 1
    exact (List.map_congr_left h).trans (List.map_id _)

/-! ## Shape of SHA-256 output -/

theorem round_length (st : List Nat) (kw : Nat × Nat) : (round st kw).length = 8 := rfl

theorem foldl_round_length (l : List (Nat × Nat)) :
    ∀ st : List Nat, st.length = 8 → (l.foldl round st).length = 8 := by
  induction l with
  | nil => intro st h; simpa using h
  | cons p rest ih =>
    intro st h
    rw [List.foldl_cons]
    exact ih _ (round_length st p)

theorem sha256Block_length {h : List Nat} (b : List Nat) (hh : h.length = 8) :
    (sha256Block h b).length = 8 := by
  simp only [sha256Block, List.length_map, List.length_zip, hh,
    foldl_round_length _ _ hh]
  decide

theorem sha256Blocks_length (n : Nat) :
    ∀ (msg h : List Nat), h.length = 8 → (sha256Blocks h n msg).length = 8 := by
  induction n with
  | zero => intro msg h hh; simpa [sha256Blocks] using hh
  | succ k ih =>
    intro msg h hh
    exact ih _ _ (sha256Block_length _ hh)

theorem sha256_length (msg : List Nat) : (sha256 msg).length = 8 :=
  sha256Blocks_length _ _ _ rfl

theorem hexChar_plain {k : Nat} (h : k < 16) : isPlainHexDigit (hexChar k) = true := by
  revert h
  revert k
  decide

theorem wordHex_plain (w : Nat) : ∀ c ∈ wordHex w, isPlainHexDigit c = true := by
  intro c hc
  simp only [wordHex, List.mem_cons, List.not_mem_nil, or_false] at hc
  rcases hc with h | h | h | h | h | h | h | h <;>
    (subst h; exact hexChar_plain (Nat.lt_succ_of_le Nat.and_le_right))

theorem wordHex_length (w : Nat) : (wordHex w).length = 8 := rfl

theorem sum_map_const8 (L : List Nat) : (L.map (fun _ => (8 : Nat))).sum = 8 * L.length := by
  induction L with
  | nil => rfl
  | cons a rest ih => simp [ih, Nat.mul_succ]; omega

theorem sha256Hex_shaped (s : String) : shaShaped (sha256Hex s) := by
  constructor
  · show (sha256Hex s).data.length = 64
    simp only [sha256Hex, List.length_flatten, List.map_map]
    have hmc : ((sha256 (utf8 s)).map (List.length ∘ wordHex)) = (sha256 (utf8 s)).map (fun _ => 8) := by
      apply List.map_congr_left
      intro a _
      exact wordHex_length a
    rw [hmc, sum_map_const8, sha256_length]
  · intro c hc
    simp only [sha256Hex, List.mem_flatten, List.mem_map] at hc
    obtain ⟨l, ⟨w, _, rfl⟩, hcl⟩ := hc
    exact wordHex_plain w c hcl

theorem genesis_shaped : shaShaped GENESIS_HASH := by
  constructor
  · decide
  · decide

/-! ## Derived facts about sha-shaped strings -/

theorem shaShaped_ne_empty {s : String} (h : shaShaped s) : s ≠ "" := by
  intro he
  rw [he] at h
  exact absurd h.1 (by decide)

theorem shaShaped_trim {s : String} (h : shaShaped s) : trim s = s :=
  pyStrip_eq_self fun c hc => isPlainHexDigit_not_ws (h.2 c hc)

theorem shaShaped_pyLower {s : String} (h : shaShaped s) : pyLower s = s :=
  pyLower_eq_self fun c hc => isPlainHexDigit_lower (h.2 c hc)

theorem scanDigits_allHex :
    ∀ l : List Char, (∀ c ∈ l, isPlainHexDigit c = true) →
      scanDigits false l = true ∧ (l ≠ [] → scanDigits true l = true) := by
  intro l
  induction l with
  | nil => intro _; exact ⟨rfl, fun h => absurd rfl h⟩
  | cons c rest ih =>
    intro h
    have hc := h c (by simp)
    have hrest := ih fun d hd => h d (by simp [hd])
    constructor
    · rw [scanDigits, if_neg (isPlainHexDigit_ne_underscore hc),
        isPlainHexDigit_hexDigit hc, hrest.1]
      rfl
    · intro _
      rw [scanDigits, if_neg (isPlainHexDigit_ne_underscore hc),
        isPlainHexDigit_hexDigit hc, hrest.1]
      rfl

theorem checkBody_allHex {l : List Char} (h : ∀ c ∈ l, isPlainHexDigit c = true) :
    checkBody l = scanDigits true l := by
  match l with
  | [] => rfl
  | [c] => rfl
  | c :: x :: rest =>
    have hx := h x (by simp)
    show (if c = '0' ∧ (x = 'x' ∨ x = 'X') then scanAfterPrefix rest
      else scanDigits true (c :: x :: rest)) = scanDigits true (c :: x :: rest)
    rw [if_neg]
    rintro ⟨-, hc | hc⟩
    · exact isPlainHexDigit_ne_x hx hc
    · exact isPlainHexDigit_ne_X hx hc

theorem stripSign_allHex {l : List Char} (h : ∀ c ∈ l, isPlainHexDigit c = true) :
    stripSign l = l := by
  cases l with
  | nil => rfl
  | cons c rest =>
    have hc := h c (by simp)
    rw [stripSign, if_neg]
    rintro (hc' | hc')
    · exact isPlainHexDigit_ne_plus hc hc'
    · exact isPlainHexDigit_ne_minus hc hc'

theorem shaShaped_isHex64 {s : String} (h : shaShaped s) : isHex64 s = true := by
  have hstrip : pyStrip s = s := shaShaped_trim h
  have hlen : s.data.length = 64 := h.1
  have hne : s.data ≠ [] := by
    intro hd
    rw [hd] at hlen
    simp at hlen
  show (let t := pyStrip s; if t.length = 64 then pyIntBase16Ok t else false) = true
  simp only [hstrip]
  rw [if_pos h.1]
  rw [pyIntBase16Ok, hstrip, stripSign_allHex h.2, checkBody_allHex h.2]
  exact (scanDigits_allHex s.data h.2).2 hne

theorem shaShaped_cand {s : String} (h : shaShaped s) :
    pyLower (pyOr (trim s) GENESIS_HASH) = s := by
  rw [shaShaped_trim h, pyOr, if_neg (shaShaped_ne_empty h), shaShaped_pyLower h]

theorem candOf_some (c : String) (row : InputRow) (h : shaShaped c) :
    pyLower (candOf (some c) row) = c :=
  shaShaped_cand h

/-! ## Inversion lemmas for the loop body -/

theorem stepRow_ok_iff {i : Nat} {row : InputRow} {cand : String} {seen : List String}
    {rec : Record} :
    stepRow i row cand seen = .ok rec ↔
      ∃ d, normalizeDate row.dateIssued = some d ∧
        isHex64 (pyLower cand) = true ∧
        sha256Hex (concatFields (trim row.certID) (trim row.recipientName)
          (trim row.courseTitle) d (pyLower cand)) ∉ seen ∧
        rec = { certID := trim row.certID, recipientName := trim row.recipientName,
                courseTitle := trim row.courseTitle, dateIssued := d,
                previousHash := pyLower cand,
                currentHash := sha256Hex (concatFields (trim row.certID)
                  (trim row.recipientName) (trim row.courseTitle) d (pyLower cand)) } := by
  unfold stepRow
  cases hnd : normalizeDate row.dateIssued with
  | none => simp
  | some d =>
    dsimp only
    by_cases hhex : isHex64 (pyLower cand) = true
    · rw [if_pos hhex]
      by_cases hmem : sha256Hex (concatFields (trim row.certID) (trim row.recipientName)
          (trim row.courseTitle) d (pyLower cand)) ∈ seen
      · rw [if_pos hmem]
        simp [hmem]
      · rw [if_neg hmem]
        simp only [Except.ok.injEq]
        constructor
        · rintro rfl
          exact ⟨d, rfl, hhex, hmem, rfl⟩
        · rintro ⟨d', hd', -, -, rfl⟩
          cases hd'
          rfl
    · rw [if_neg hhex]
      simp [hhex]

theorem stepRow_error_cases {i : Nat} {row : InputRow} {cand : String} {seen : List String}
    {e : ChainError} (h : stepRow i row cand seen = .error e) :
    (e = .invalidDate (trim row.dateIssued) ∧ normalizeDate row.dateIssued = none) ∨
    (∃ d, normalizeDate row.dateIssued = some d ∧
      e = .invalidPrevHash i (pyLower cand) ∧ isHex64 (pyLower cand) = false) ∨
    (∃ d, normalizeDate row.dateIssued = some d ∧ isHex64 (pyLower cand) = true ∧
      e = .duplicateHash i (sha256Hex (concatFields (trim row.certID) (trim row.recipientName)
        (trim row.courseTitle) d (pyLower cand))) ∧
      sha256Hex (concatFields (trim row.certID) (trim row.recipientName)
        (trim row.courseTitle) d (pyLower cand)) ∈ seen) := by
  unfold stepRow at h
  cases hnd : normalizeDate row.dateIssued with
  | none =>
    rw [hnd] at h
    dsimp only at h
    left
    cases h
    exact ⟨rfl, rfl⟩
  | some d =>
    rw [hnd] at h
    dsimp only at h
    by_cases hhex : isHex64 (pyLower cand) = true
    · rw [if_pos hhex] at h
      by_cases hmem : sha256Hex (concatFields (trim row.certID) (trim row.recipientName)
          (trim row.courseTitle) d (pyLower cand)) ∈ seen
      · rw [if_pos hmem] at h
        right; right
        cases h
        exact ⟨d, rfl, hhex, rfl, hmem⟩
      · rw [if_neg hmem] at h
        cases h
    · rw [if_neg hhex] at h
      right; left
      cases h
      exact ⟨d, rfl, rfl, by simpa using hhex⟩

theorem enrichRow_snd (cfg : Config) (ab : String → String) (qk : Nat → Bool)
    (i : Nat) (r : Record) :
    ∃ v q p, (enrichRow cfg ab qk i r).2 =
      { r with verificationURL := v, qrCodeURL := q, qrCodePath := p } := by
  unfold enrichRow
  cases cfg.baseUrl with
  | none => exact ⟨r.verificationURL, r.qrCodeURL, r.qrCodePath, rfl⟩
  | some b =>
    cases cfg.qrDir with
    | none =>
      cases haq : cfg.addQrUrl <;> exact ⟨_, _, _, rfl⟩
    | some d =>
      cases haq : cfg.addQrUrl <;> cases hok : qk i <;> exact ⟨_, _, _, rfl⟩

theorem enrichRow_core (cfg : Config) (ab : String → String) (qk : Nat → Bool)
    (i : Nat) (r : Record) :
    (enrichRow cfg ab qk i r).2.certID = r.certID ∧
    (enrichRow cfg ab qk i r).2.recipientName = r.recipientName ∧
    (enrichRow cfg ab qk i r).2.courseTitle = r.courseTitle ∧
    (enrichRow cfg ab qk i r).2.dateIssued = r.dateIssued ∧
    (enrichRow cfg ab qk i r).2.previousHash = r.previousHash ∧
    (enrichRow cfg ab qk i r).2.currentHash = r.currentHash := by
  obtain ⟨v, q, p, h⟩ := enrichRow_snd cfg ab qk i r
  rw [h]
  exact ⟨rfl, rfl, rfl, rfl, rfl, rfl⟩

theorem enrichRow_fst (cfg : Config) (ab : String → String) (qk : Nat → Bool)
    (i : Nat) (r : Record) :
    (enrichRow cfg ab qk i r).1 = [] ∨
    ∃ u p, (enrichRow cfg ab qk i r).1 = [Effect.downloadQR u p] := by
  unfold enrichRow
  cases cfg.baseUrl with
  | none => left; rfl
  | some b =>
    cases cfg.qrDir with
    | none =>
      cases haq : cfg.addQrUrl <;> left <;> rfl
    | some d =>
      cases haq : cfg.addQrUrl <;> cases hok : qk i <;> right <;> exact ⟨_, _, rfl⟩

theorem buildLoop_nil (cfg : Config) (ab : String → String) (qk : Nat → Bool)
    (i : Nat) (seen : List String) (prevCur : Option String) :
    buildLoop cfg ab qk i seen prevCur [] = ([], .ok []) := rfl

theorem buildLoop_cons (cfg : Config) (ab : String → String) (qk : Nat → Bool)
    (i : Nat) (seen : List String) (prevCur : Option String) (row : InputRow)
    (rest : List InputRow) :
    buildLoop cfg ab qk i seen prevCur (row :: rest) =
      match stepRow i row (candOf prevCur row) seen with
      | .error e => ([], .error e)
      | .ok rec =>
        ((enrichRow cfg ab qk i rec).1 ++
           (buildLoop cfg ab qk (i + 1) (rec.currentHash :: seen) (some rec.currentHash) rest).1,
         match (buildLoop cfg ab qk (i + 1) (rec.currentHash :: seen) (some rec.currentHash) rest).2 with
         | .error e => .error e
         | .ok recs => .ok ((enrichRow cfg ab qk i rec).2 :: recs)) := rfl

theorem buildLoop_cons_ok {cfg : Config} {ab : String → String} {qk : Nat → Bool}
    {i : Nat} {seen : List String} {prevCur : Option String} {row : InputRow}
    {rest : List InputRow} {evts : List Effect} {recs : List Record}
    (h : buildLoop cfg ab qk i seen prevCur (row :: rest) = (evts, .ok recs)) :
    ∃ rec evts2 recs2,
      stepRow i row (candOf prevCur row) seen = .ok rec ∧
      buildLoop cfg ab qk (i + 1) (rec.currentHash :: seen) (some rec.currentHash) rest
        = (evts2, .ok recs2) ∧
      evts = (enrichRow cfg ab qk i rec).1 ++ evts2 ∧
      recs = (enrichRow cfg ab qk i rec).2 :: recs2 := by
  rw [buildLoop_cons] at h
  cases hstep : stepRow i row (candOf prevCur row) seen with
  | error e =>
    rw [hstep] at h
    dsimp only at h
    exact absurd (congrArg Prod.snd h) (by simp)
  | ok rec =>
    rw [hstep] at h
    dsimp only at h
    cases hres : (buildLoop cfg ab qk (i + 1) (rec.currentHash :: seen)
        (some rec.currentHash) rest).2 with
    | error e =>
      rw [hres] at h
      dsimp only at h
      exact absurd (congrArg Prod.snd h) (by simp)
    | ok recs2 =>
      rw [hres] at h
      dsimp only at h
      have h1 := congrArg Prod.fst h
      have h2 := congrArg Prod.snd h
      dsimp only at h1 h2
      have hrecs : recs = (enrichRow cfg ab qk i rec).2 :: recs2 := by
        cases h2
        rfl
      refine ⟨rec, (buildLoop cfg ab qk (i + 1) (rec.currentHash :: seen)
        (some rec.currentHash) rest).1, recs2, rfl, ?_, h1.symm, hrecs⟩
      conv_rhs => rw [← hres]

theorem buildLoop_cons_error {cfg : Config} {ab : String → String} {qk : Nat → Bool}
    {i : Nat} {seen : List String} {prevCur : Option String} {row : InputRow}
    {rest : List InputRow} {evts : List Effect} {e : ChainError}
    (h : buildLoop cfg ab qk i seen prevCur (row :: rest) = (evts, .error e)) :
    (stepRow i row (candOf prevCur row) seen = .error e ∧ evts = []) ∨
    (∃ rec evts2,
      stepRow i row (candOf prevCur row) seen = .ok rec ∧
      buildLoop cfg ab qk (i + 1) (rec.currentHash :: seen) (some rec.currentHash) rest
        = (evts2, .error e) ∧
      evts = (enrichRow cfg ab qk i rec).1 ++ evts2) := by
  rw [buildLoop_cons] at h
  cases hstep : stepRow i row (candOf prevCur row) seen with
  | error e' =>
    rw [hstep] at h
    dsimp only at h
    left
    have h1 := congrArg Prod.fst h
    have h2 := congrArg Prod.snd h
    dsimp only at h1 h2
    cases h2
    exact ⟨rfl, h1.symm⟩
  | ok rec =>
    rw [hstep] at h
    dsimp only at h
    cases hres : (buildLoop cfg ab qk (i + 1) (rec.currentHash :: seen)
        (some rec.currentHash) rest).2 with
    | error e' =>
      rw [hres] at h
      dsimp only at h
      right
      have h1 := congrArg Prod.fst h
      have h2 := congrArg Prod.snd h
      dsimp only at h1 h2
      cases h2
      refine ⟨rec, (buildLoop cfg ab qk (i + 1) (rec.currentHash :: seen)
        (some rec.currentHash) rest).1, rfl, ?_, h1.symm⟩
      conv_rhs => rw [← hres]
    | ok recs2 =>
      rw [hres] at h
      dsimp only at h
      exact absurd (congrArg Prod.snd h) (by simp)

/-! ## The invariant of a successful loop run -/

theorem buildLoop_ok_inv (cfg : Config) (ab : String → String) (qk : Nat → Bool) :
    ∀ (rows : List InputRow) (i : Nat) (seen : List String) (prevCur : Option String)
      (evts : List Effect) (recs : List Record),
      buildLoop cfg ab qk i seen prevCur rows = (evts, .ok recs) →
      recs.length = rows.length ∧
      (∀ j r, recs.get? j = some r →
        r.currentHash = sha256Hex (concatFields r.certID r.recipientName r.courseTitle
          r.dateIssued r.previousHash) ∧
        ∃ row, rows.get? j = some row ∧
          r.certID = trim row.certID ∧ r.recipientName = trim row.recipientName ∧
          r.courseTitle = trim row.courseTitle ∧
          normalizeDate row.dateIssued = some r.dateIssued) ∧
      (∀ r0 row0, recs.get? 0 = some r0 → rows.get? 0 = some row0 →
        r0.previousHash = pyLower (candOf prevCur row0)) ∧
      (∀ j a b, recs.get? j = some a → recs.get? (j + 1) = some b →
        b.previousHash = a.currentHash) ∧
      (recs.map (·.currentHash)).Nodup ∧
      (∀ hsh ∈ recs.map (·.currentHash), hsh ∉ seen) := by
  intro rows
  induction rows with
  | nil =>
    intro i seen prevCur evts recs h
    rw [buildLoop_nil] at h
    have h2 := congrArg Prod.snd h
    dsimp only at h2
    injection h2 with h2
    subst h2
    simp
  | cons row rest ih =>
    intro i seen prevCur evts recs h
    obtain ⟨rec, evts2, recs2, hstep, hrest, hevts, hrecs⟩ := buildLoop_cons_ok h
    obtain ⟨d, hnd, hhex, hmem, hrec⟩ := stepRow_ok_iff.mp hstep
    obtain ⟨ih1, ih2, ih3, ih4, ih5, ih6⟩ :=
      ih (i + 1) (rec.currentHash :: seen) (some rec.currentHash) evts2 recs2 hrest
    obtain ⟨hc1, hc2, hc3, hc4, hc5, hc6⟩ := enrichRow_core cfg ab qk i rec
    have hcert : rec.certID = trim row.certID := by rw [hrec]
    have hname : rec.recipientName = trim row.recipientName := by rw [hrec]
    have htitle : rec.courseTitle = trim row.courseTitle := by rw [hrec]
    have hdate : rec.dateIssued = d := by rw [hrec]
    have hprev : rec.previousHash = pyLower (candOf prevCur row) := by rw [hrec]
    have hcur : rec.currentHash = sha256Hex (concatFields rec.certID rec.recipientName
        rec.courseTitle rec.dateIssued rec.previousHash) := by
      rw [hrec]
    have hshape : shaShaped rec.currentHash := by
      rw [hcur]
      exact sha256Hex_shaped _
    have hmem' : rec.currentHash ∉ seen := by
      rw [hrec]
      exact hmem
    subst hrecs
    refine ⟨by simp [ih1], ?_, ?_, ?_, ?_, ?_⟩
    · intro j r hj
      cases j with
      | zero =>
        injection hj with hj
        subst hj
        constructor
        · rw [hc6, hc1, hc2, hc3, hc4, hc5, hcur]
        · refine ⟨row, rfl, ?_, ?_, ?_, ?_⟩
          · rw [hc1, hcert]
          · rw [hc2, hname]
          · rw [hc3, htitle]
          · rw [hc4, hdate]
            exact hnd
      | succ k =>
        obtain ⟨hhash, row', hrow', hf⟩ := ih2 k r hj
        exact ⟨hhash, row', hrow', hf⟩
    · intro r0 row0 h0 hrow0
      injection h0 with h0
      injection hrow0 with hrow0
      subst h0
      subst hrow0
      rw [hc5, hprev]
    · intro j a b ha hb
      cases j with
      | zero =>
        injection ha with ha
        subst ha
        have hb2 : recs2.get? 0 = some b := hb
        cases hrow' : rest.get? 0 with
        | none =>
          have hlen0 := List.get?_eq_none.mp hrow'
          have hlt : 0 < recs2.length := by
            rcases List.get?_eq_some.mp hb2 with ⟨hl, -⟩
            exact hl
          rw [ih1] at hlt
          omega
        | some row' =>
          have hb' := ih3 b row' hb2 hrow'
          rw [hb', candOf_some _ _ hshape, hc6]
      | succ k => exact ih4 k a b ha hb
    · rw [List.map_cons, List.nodup_cons]
      constructor
      · intro hin
        have hin2 : rec.currentHash ∈ List.map (fun x => x.currentHash) recs2 := by
          rw [← hc6]
          exact hin
        exact (ih6 _ hin2) (List.mem_cons_self _ _)
      · exact ih5
    · intro hsh hin
      rcases List.mem_cons.mp hin with hh | hh
      · have hh2 : hsh = rec.currentHash := by
          rw [← hc6]
          exact hh
        rw [hh2]
        exact hmem'
      · intro hseen
        exact (ih6 hsh hh) (List.mem_cons_of_mem _ hseen)

/-! ## A failing loop run splits into a clean prefix and a failing step -/

theorem buildLoop_error_split (cfg : Config) (ab : String → String) (qk : Nat → Bool) :
    ∀ (rows : List InputRow) (i : Nat) (seen : List String) (prevCur : Option String)
      (evts : List Effect) (e : ChainError),
      buildLoop cfg ab qk i seen prevCur rows = (evts, .error e) →
      ∃ m recsP row,
        rows.get? m = some row ∧
        buildLoop cfg ab qk i seen prevCur (rows.take m) = (evts, .ok recsP) ∧
        stepRow (i + m) row
          (candOf (match recsP.getLast? with
                   | some r => some r.currentHash
                   | none => prevCur) row)
          ((recsP.map (fun x => x.currentHash)).reverse ++ seen) = .error e := by
  intro rows
  induction rows with
  | nil =>
    intro i seen prevCur evts e h
    rw [buildLoop_nil] at h
    exact absurd (congrArg Prod.snd h) (by simp)
  | cons row rest ih =>
    intro i seen prevCur evts e h
    rcases buildLoop_cons_error h with ⟨hstep, hevts⟩ | ⟨rec, evts2, hstep, hrest, hevts⟩
    · subst hevts
      exact ⟨0, [], row, rfl, by rw [List.take_zero, buildLoop_nil], by simpa using hstep⟩
    · obtain ⟨m, recsP, row', hrow', htake, hstep'⟩ :=
        ih (i + 1) (rec.currentHash :: seen) (some rec.currentHash) evts2 e hrest
      have hc6 := (enrichRow_core cfg ab qk i rec).2.2.2.2.2
      refine ⟨m + 1, (enrichRow cfg ab qk i rec).2 :: recsP, row', hrow', ?_, ?_⟩
      · rw [List.take_succ_cons, buildLoop_cons, hstep]
        dsimp only
        rw [htake]
        dsimp only
        rw [hevts]
      · have hX : (match ((enrichRow cfg ab qk i rec).2 :: recsP).getLast? with
            | some r => some r.currentHash
            | none => prevCur) =
            (match recsP.getLast? with
            | some r => some r.currentHash
            | none => some rec.currentHash) := by
          cases recsP with
          | nil =>
            exact congrArg some hc6
          | cons r2 t =>
            rw [List.getLast?_cons_cons]
            cases hgl : (r2 :: t).getLast? with
            | none =>
              have hsome := List.getLast?_isSome (l := r2 :: t)
              rw [hgl] at hsome
              simp at hsome
            | some r => rfl
        have hS : ((((enrichRow cfg ab qk i rec).2 :: recsP).map
              (fun x => x.currentHash)).reverse ++ seen)
            = (recsP.map (fun x => x.currentHash)).reverse ++ (rec.currentHash :: seen) := by
          rw [List.map_cons, List.reverse_cons, List.append_assoc]
          have : ([(fun x : Record => x.currentHash) (enrichRow cfg ab qk i rec).2] ++ seen)
              = rec.currentHash :: seen := by
            rw [List.singleton_append]
            rw [show (fun x : Record => x.currentHash) (enrichRow cfg ab qk i rec).2
              = rec.currentHash from hc6]
          rw [this]
        have hi : i + (m + 1) = (i + 1) + m := by omega
        rw [hX, hS, hi]
        exact hstep'

/-! ## All loop events are QR downloads -/

theorem buildLoop_events (cfg : Config) (ab : String → String) (qk : Nat → Bool) :
    ∀ (rows : List InputRow) (i : Nat) (seen : List String) (prevCur : Option String),
      ∀ ev ∈ (buildLoop cfg ab qk i seen prevCur rows).1, ev.isDownload = true := by
  intro rows
  induction rows with
  | nil =>
    intro i seen prevCur ev hev
    rw [buildLoop_nil] at hev
    exact absurd hev (by simp)
  | cons row rest ih =>
    intro i seen prevCur ev hev
    rw [buildLoop_cons] at hev
    cases hstep : stepRow i row (candOf prevCur row) seen with
    | error e =>
      rw [hstep] at hev
      exact absurd hev (by simp)
    | ok rec =>
      rw [hstep] at hev
      dsimp only at hev
      rcases List.mem_append.mp hev with hin | hin
      · rcases enrichRow_fst cfg ab qk i rec with hnil | ⟨u, p, hone⟩
        · rw [hnil] at hin
          exact absurd hin (by simp)
        · rw [hone] at hin
          rcases List.mem_cons.mp hin with hh | hh
          · rw [hh]
            rfl
          · exact absurd hh (by simp)
      · exact ih (i + 1) (rec.currentHash :: seen) (some rec.currentHash) ev hin

/-! ## Top-level inversions for `chain_certificates` -/

theorem chainCertificates_ok {cfg : Config} {ab : String → String} {qk : Nat → Bool}
    {fns : List String} {rows : List InputRow} {evts : List Effect} {out : BuildOutput}
    (h : chainCertificates cfg ab qk fns rows = (evts, .ok out)) :
    REQUIRED_COLUMNS.filter (fun c => !(fns.contains c)) = [] ∧ rows ≠ [] ∧
    ∃ levts, buildLoop cfg ab qk 0 [] none rows = (levts, .ok out.records) ∧
      evts = levts ++ writeEvents cfg ∧
      out.outFieldnames = outFieldnamesOf cfg ∧ out.index = buildIndex out.records := by
  unfold chainCertificates at h
  by_cases hm : REQUIRED_COLUMNS.filter (fun c => !(fns.contains c)) ≠ []
  · rw [if_pos hm] at h
    exact absurd (congrArg Prod.snd h) (by simp)
  · rw [if_neg hm] at h
    by_cases hr : rows = []
    · rw [if_pos hr] at h
      exact absurd (congrArg Prod.snd h) (by simp)
    · rw [if_neg hr] at h
      dsimp only at h
      refine ⟨by simpa using hm, hr, ?_⟩
      cases hres : (buildLoop cfg ab qk 0 [] none rows).2 with
      | error e =>
        rw [hres] at h
        exact absurd (congrArg Prod.snd h) (by simp)
      | ok recs =>
        rw [hres] at h
        dsimp only at h
        have h1 := congrArg Prod.fst h
        have h2 := congrArg Prod.snd h
        dsimp only at h1 h2
        injection h2 with h2
        subst h2
        refine ⟨(buildLoop cfg ab qk 0 [] none rows).1, ?_, h1.symm, rfl, rfl⟩
        conv_rhs => rw [← hres]

theorem chainCertificates_error {cfg : Config} {ab : String → String} {qk : Nat → Bool}
    {fns : List String} {rows : List InputRow} {evts : List Effect} {e : ChainError}
    (h : chainCertificates cfg ab qk fns rows = (evts, .error e)) :
    (e = .missingColumns (REQUIRED_COLUMNS.filter (fun c => !(fns.contains c))) ∧ evts = []) ∨
    (e = .emptyInput ∧ evts = []) ∨
    buildLoop cfg ab qk 0 [] none rows = (evts, .error e) := by
  unfold chainCertificates at h
  by_cases hm : REQUIRED_COLUMNS.filter (fun c => !(fns.contains c)) ≠ []
  · rw [if_pos hm] at h
    have h1 := congrArg Prod.fst h
    have h2 := congrArg Prod.snd h
    dsimp only at h1 h2
    injection h2 with h2
    exact Or.inl ⟨h2.symm, h1.symm⟩
  · rw [if_neg hm] at h
    by_cases hr : rows = []
    · rw [if_pos hr] at h
      have h1 := congrArg Prod.fst h
      have h2 := congrArg Prod.snd h
      dsimp only at h1 h2
      injection h2 with h2
      exact Or.inr (Or.inl ⟨h2.symm, h1.symm⟩)
    · rw [if_neg hr] at h
      dsimp only at h
      right; right
      cases hres : (buildLoop cfg ab qk 0 [] none rows).2 with
      | error e' =>
        rw [hres] at h
        dsimp only at h
        have h1 := congrArg Prod.fst h
        have h2 := congrArg Prod.snd h
        dsimp only at h1 h2
        cases h2
        rw [← h1]
        conv_lhs => rw [show (buildLoop cfg ab qk 0 [] none rows)
          = ((buildLoop cfg ab qk 0 [] none rows).1, (buildLoop cfg ab qk 0 [] none rows).2) from rfl]
        rw [hres]
      | ok recs =>
        rw [hres] at h
        dsimp only at h
        exact absurd (congrArg Prod.snd h) (by simp)

/-! ## The loop ignores `PreviousHash` of non-first rows -/

theorem stepRow_congr {i : Nat} {cand : String} {seen : List String} {row row' : InputRow}
    (h1 : row.certID = row'.certID) (h2 : row.recipientName = row'.recipientName)
    (h3 : row.courseTitle = row'.courseTitle) (h4 : row.dateIssued = row'.dateIssued) :
    stepRow i row cand seen = stepRow i row' cand seen := by
  unfold stepRow
  rw [h1, h2, h3, h4]

theorem scrubPrev_fields {row row' : InputRow} (h : scrubPrev row = scrubPrev row') :
    row.certID = row'.certID ∧ row.recipientName = row'.recipientName ∧
    row.courseTitle = row'.courseTitle ∧ row.dateIssued = row'.dateIssued ∧
    row.currentHash = row'.currentHash := by
  have h1 := congrArg InputRow.certID h
  have h2 := congrArg InputRow.recipientName h
  have h3 := congrArg InputRow.courseTitle h
  have h4 := congrArg InputRow.dateIssued h
  have h5 := congrArg InputRow.currentHash h
  exact ⟨h1, h2, h3, h4, h5⟩

theorem buildLoop_scrub (cfg : Config) (ab : String → String) (qk : Nat → Bool) :
    ∀ (rest rest' : List InputRow) (i : Nat) (seen : List String) (c : String),
      rest.map scrubPrev = rest'.map scrubPrev →
      buildLoop cfg ab qk i seen (some c) rest = buildLoop cfg ab qk i seen (some c) rest' := by
  intro rest
  induction rest with
  | nil =>
    intro rest' i seen c h
    have : rest' = [] := by
      cases rest' with
      | nil => rfl
      | cons r t => simp at h
    rw [this]
  | cons row t ih =>
    intro rest' i seen c h
    cases rest' with
    | nil => simp at h
    | cons row' t' =>
      rw [List.map_cons, List.map_cons] at h
      injection h with hhead htail
      obtain ⟨h1, h2, h3, h4, -⟩ := scrubPrev_fields hhead
      rw [buildLoop_cons, buildLoop_cons]
      have hcand : candOf (some c) row = candOf (some c) row' := rfl
      rw [← hcand, ← stepRow_congr h1 h2 h3 h4]
      cases hstep : stepRow i row (candOf (some c) row) seen with
      | error e => rfl
      | ok rec =>
        dsimp only
        rw [ih t' (i + 1) (rec.currentHash :: seen) rec.currentHash htail]

theorem buildLoop_scrub_head (cfg : Config) (ab : String → String) (qk : Nat → Bool)
    (i : Nat) (seen : List String) (r0 : InputRow) (rest rest' : List InputRow)
    (h : rest.map scrubPrev = rest'.map scrubPrev) :
    buildLoop cfg ab qk i seen none (r0 :: rest) =
      buildLoop cfg ab qk i seen none (r0 :: rest') := by
  rw [buildLoop_cons, buildLoop_cons]
  cases hstep : stepRow i r0 (candOf none r0) seen with
  | error e => rfl
  | ok rec =>
    dsimp only
    rw [buildLoop_scrub cfg ab qk rest rest' (i + 1) (rec.currentHash :: seen)
      rec.currentHash h]

/-! ## Only the date's parse result matters to the loop -/

theorem stepRow_date_congr {i : Nat} {cand : String} {seen : List String}
    {row : InputRow} {v d : String}
    (hv : normalizeDate v = some d) (hrow : normalizeDate row.dateIssued = some d) :
    stepRow i { row with dateIssued := v } cand seen = stepRow i row cand seen := by
  unfold stepRow
  rw [show ({ row with dateIssued := v } : InputRow).dateIssued = v from rfl, hv, hrow]

theorem buildLoop_set_date (cfg : Config) (ab : String → String) (qk : Nat → Bool) :
    ∀ (rows : List InputRow) (j : Nat) (i : Nat) (seen : List String)
      (prevCur : Option String) (row : InputRow) (v d : String),
      rows.get? j = some row → normalizeDate row.dateIssued = some d →
      normalizeDate v = some d →
      buildLoop cfg ab qk i seen prevCur (rows.set j { row with dateIssued := v }) =
        buildLoop cfg ab qk i seen prevCur rows := by
  intro rows
  induction rows with
  | nil =>
    intro j i seen prevCur row v d hj
    simp at hj
  | cons r t ih =>
    intro j i seen prevCur row v d hj hrow hv
    cases j with
    | zero =>
      injection hj with hj
      subst hj
      rw [List.set_cons_zero, buildLoop_cons, buildLoop_cons]
      cases prevCur with
      | none =>
        rw [show candOf none { r with dateIssued := v } = candOf none r from rfl,
          stepRow_date_congr hv hrow]
      | some c =>
        rw [show candOf (some c) { r with dateIssued := v } = candOf (some c) r from rfl,
          stepRow_date_congr hv hrow]
    | succ k =>
      have hj' : t.get? k = some row := hj
      rw [List.set_cons_succ, buildLoop_cons, buildLoop_cons]
      cases hstep : stepRow i r (candOf prevCur r) seen with
      | error e => rfl
      | ok rec =>
        dsimp only
        rw [ih k (i + 1) (rec.currentHash :: seen) (some rec.currentHash) row v d hj' hrow hv]

/-! ## Hash-index lookup -/

theorem lookup_of_pairs :
    ∀ (ps : List (String × Nat)) (j : Nat) (a : String) (b : Nat),
      (ps.map Prod.fst).Nodup → ps.get? j = some (a, b) → ps.lookup a = some b := by
  intro ps
  induction ps with
  | nil =>
    intro j a b _ hj
    simp at hj
  | cons p t ih =>
    intro j a b hnd hj
    rw [List.map_cons, List.nodup_cons] at hnd
    cases j with
    | zero =>
      injection hj with hj
      subst hj
      simp [List.lookup]
    | succ k =>
      have hj' : t.get? k = some (a, b) := hj
      have hmem : a ∈ t.map Prod.fst := by
        have := List.get?_mem hj'
        exact List.mem_map_of_mem Prod.fst this
      have hne : p.1 ≠ a := by
        intro hpa
        rw [hpa] at hnd
        exact hnd.1 hmem
      have hbeq : (a == p.1) = false := by
        rw [beq_eq_false_iff_ne]
        exact fun hh => hne hh.symm
      cases p with
      | mk k0 v0 =>
        rw [List.lookup]
        rw [show (a == k0) = false from hbeq]
        exact ih k a b hnd.2 hj'

theorem zip_pairs_get? :
    ∀ (ns : List Nat) (recs : List Record) (j : Nat) (n : Nat) (r : Record),
      ns.get? j = some n → recs.get? j = some r →
      ((ns.zip recs).map (fun p => (p.2.currentHash, p.1))).get? j = some (r.currentHash, n) := by
  intro ns
  induction ns with
  | nil =>
    intro recs j n r hn
    simp at hn
  | cons n0 nt ih =>
    intro recs j n r hn hr
    cases recs with
    | nil => simp at hr
    | cons r0 rt =>
      cases j with
      | zero =>
        injection hn with hn
        injection hr with hr
        subst hn
        subst hr
        rfl
      | succ k =>
        have hn' : nt.get? k = some n := hn
        have hr' : rt.get? k = some r := hr
        exact ih rt k n r hn' hr'

theorem zip_pairs_fst :
    ∀ (ns : List Nat) (recs : List Record), ns.length = recs.length →
      (((ns.zip recs).map (fun p => (p.2.currentHash, p.1))).map Prod.fst)
        = recs.map (fun x => x.currentHash) := by
  intro ns
  induction ns with
  | nil =>
    intro recs h
    cases recs with
    | nil => rfl
    | cons r t => simp at h
  | cons n0 nt ih =>
    intro recs h
    cases recs with
    | nil => simp at h
    | cons r0 rt =>
      have h' : nt.length = rt.length := by
        simpa using h
      simp only [List.zip_cons_cons, List.map_cons]
      rw [ih rt h']

theorem buildIndex_length (recs : List Record) : (buildIndex recs).length = recs.length := by
  simp [buildIndex]

theorem buildIndex_lookup {recs : List Record}
    (hnd : (recs.map (fun x => x.currentHash)).Nodup)
    {j : Nat} {r : Record} (hj : recs.get? j = some r) :
    (buildIndex recs).lookup r.currentHash = some j := by
  have hjlt : j < recs.length := by
    rcases List.get?_eq_some.mp hj with ⟨hl, -⟩
    exact hl
  have hrange : (List.range recs.length).get? j = some j := List.get?_range hjlt
  have hget := zip_pairs_get? (List.range recs.length) recs j j r hrange hj
  have hfst := zip_pairs_fst (List.range recs.length) recs (by simp)
  apply lookup_of_pairs (buildIndex recs) j r.currentHash j
  · rw [show (buildIndex recs).map Prod.fst
      = recs.map (fun x => x.currentHash) from hfst]
    exact hnd
  · exact hget

/-! ## Concrete build evaluations shared by witnesses -/

set_option maxRecDepth 1000000 in
/-- The concrete two-row build used by several witnesses, evaluated. -/
theorem build_AB_eq :
    chainCertificates cfgPlain id qrAll REQUIRED_COLUMNS [rowA, rowB] =
      ([Effect.writeCSV "out.csv"], .ok outAB) := rfl

set_option maxRecDepth 1000000 in
/-- A concrete failing build with enrichment enabled: the third row has
an invalid date, and the first two rows' QR downloads have already been
attempted when the build aborts. -/
theorem build_fail_eq :
    chainCertificates cfgFull id qrAll REQUIRED_COLUMNS [rowA, rowB, rowBadDate] =
      ([Effect.downloadQR urlQRA "qr/C1.png", Effect.downloadQR urlQRB "qr/C2.png"],
       .error (.invalidDate "2024-13-01")) := rfl

/-- Indexed elements of a list with a `Nodup` image have distinct
images. -/
theorem map_nodup_get?_ne {l : List Record} {f : Record → String}
    (hnd : (l.map f).Nodup) {j k : Nat} {a b : Record}
    (hj : l.get? j = some a) (hk : l.get? k = some b) (hjk : j ≠ k) : f a ≠ f b := by
  intro hfeq
  have hm1 : (l.map f).get? j = some (f a) := by
    rw [List.get?_map, hj]
    rfl
  have hm2 : (l.map f).get? k = some (f b) := by
    rw [List.get?_map, hk]
    rfl
  have heq : (l.map f).get? j = (l.map f).get? k := by
    rw [hm1, hm2, hfeq]
  have hjlt : j < (l.map f).length := by
    rcases List.get?_eq_some.mp hm1 with ⟨hl, -⟩
    exact hl
  exact hjk (List.get?_inj hjlt hnd heq)

/-! ## Claim theorems -/

/-- C1: For every record in a successfully built chain, its
`current_hash` equals the lowercase-hex SHA-256 digest of the UTF-8
encoding of `cert_id + "|" + recipient_name + "|" + course_title + "|"
+ date_issued + "|" + previous_hash`, where the first four components
are the trimmed/normalized field values of the corresponding input row
and `previous_hash` is the record's linked previous hash. -/
theorem C1_current_hash (cfg : Config) (ab : String → String) (qk : Nat → Bool)
    (fns : List String) (rows : List InputRow) (evts : List Effect) (out : BuildOutput)
    (h : chainCertificates cfg ab qk fns rows = (evts, .ok out)) :
    out.records.length = rows.length ∧
    ∀ j r, out.records.get? j = some r →
      r.currentHash = sha256Hex (concatFields r.certID r.recipientName r.courseTitle
        r.dateIssued r.previousHash) ∧
      ∃ row, rows.get? j = some row ∧
        r.certID = trim row.certID ∧ r.recipientName = trim row.recipientName ∧
        r.courseTitle = trim row.courseTitle ∧
        normalizeDate row.dateIssued = some r.dateIssued := by
  obtain ⟨-, -, levts, hloop, -, -, -⟩ := chainCertificates_ok h
  obtain ⟨h1, h2, -, -, -, -⟩ :=
    buildLoop_ok_inv cfg ab qk rows 0 [] none levts out.records hloop
  exact ⟨h1, h2⟩

/-- Witness for C1: the hash of the first record of a concrete
two-row build. -/
theorem C1_current_hash_witness :
    recA.currentHash = sha256Hex (concatFields recA.certID recA.recipientName
      recA.courseTitle recA.dateIssued recA.previousHash) :=
  ((C1_current_hash cfgPlain id qrAll REQUIRED_COLUMNS [rowA, rowB]
      [Effect.writeCSV "out.csv"] outAB build_AB_eq).2 0 recA rfl).1

/-- C2: In every successfully built chain, `record[i].previous_hash =
record[i-1].current_hash` for `i > 0`; and the `PreviousHash` column
supplied in a non-first input row is never consulted: two inputs
agreeing on the first row and everywhere except the `PreviousHash`
fields of later rows build identically. -/
theorem C2_chain_linkage :
    (∀ (cfg : Config) (ab : String → String) (qk : Nat → Bool) (fns : List String)
       (rows : List InputRow) (evts : List Effect) (out : BuildOutput),
       chainCertificates cfg ab qk fns rows = (evts, .ok out) →
       ∀ j a b, out.records.get? j = some a → out.records.get? (j + 1) = some b →
         b.previousHash = a.currentHash) ∧
    (∀ (cfg : Config) (ab : String → String) (qk : Nat → Bool) (fns : List String)
       (r0 : InputRow) (rest rest' : List InputRow),
       rest.map scrubPrev = rest'.map scrubPrev →
       chainCertificates cfg ab qk fns (r0 :: rest) =
         chainCertificates cfg ab qk fns (r0 :: rest')) := by
  constructor
  · intro cfg ab qk fns rows evts out h j a b ha hb
    obtain ⟨-, -, levts, hloop, -, -, -⟩ := chainCertificates_ok h
    obtain ⟨-, -, -, h4, -, -⟩ :=
      buildLoop_ok_inv cfg ab qk rows 0 [] none levts out.records hloop
    exact h4 j a b ha hb
  · intro cfg ab qk fns r0 rest rest' h
    unfold chainCertificates
    by_cases hm : REQUIRED_COLUMNS.filter (fun c => !(fns.contains c)) ≠ []
    · rw [if_pos hm, if_pos hm]
    · rw [if_neg hm, if_neg hm, if_neg (List.cons_ne_nil r0 rest),
        if_neg (List.cons_ne_nil r0 rest')]
      dsimp only
      rw [buildLoop_scrub_head cfg ab qk 0 [] r0 rest rest' h]

/-- Witness for C2: the second record of a concrete build links to the
first record's hash, and changing the second row's `PreviousHash`
column does not change the build at all. -/
theorem C2_chain_linkage_witness :
    recB.previousHash = recA.currentHash ∧
    chainCertificates cfgPlain id qrAll REQUIRED_COLUMNS [rowA, rowB] =
      chainCertificates cfgPlain id qrAll REQUIRED_COLUMNS
        [rowA, { rowB with previousHash := "a completely different value" }] :=
  ⟨C2_chain_linkage.1 cfgPlain id qrAll REQUIRED_COLUMNS [rowA, rowB]
      [Effect.writeCSV "out.csv"] outAB build_AB_eq 0 recA recB rfl rfl,
   C2_chain_linkage.2 cfgPlain id qrAll REQUIRED_COLUMNS rowA [rowB]
      [{ rowB with previousHash := "a completely different value" }] rfl⟩

/-- C3: In every successful build, `record[0].previous_hash` is the
caller-supplied first-row `PreviousHash`, trimmed and lower-cased, when
that value is non-empty after trimming, and the 64-zero genesis
constant otherwise. -/
theorem C3_genesis (cfg : Config) (ab : String → String) (qk : Nat → Bool)
    (fns : List String) (rows : List InputRow) (evts : List Effect) (out : BuildOutput)
    (row0 : InputRow) (r0 : Record)
    (h : chainCertificates cfg ab qk fns rows = (evts, .ok out))
    (hrow0 : rows.get? 0 = some row0) (hr0 : out.records.get? 0 = some r0) :
    r0.previousHash = if trim row0.previousHash = "" then GENESIS_HASH
      else pyLower (trim row0.previousHash) := by
  obtain ⟨-, -, levts, hloop, -, -, -⟩ := chainCertificates_ok h
  obtain ⟨-, -, h3, -, -, -⟩ :=
    buildLoop_ok_inv cfg ab qk rows 0 [] none levts out.records hloop
  have hp := h3 r0 row0 hr0 hrow0
  rw [hp]
  show pyLower (pyOr (trim row0.previousHash) GENESIS_HASH) = _
  rw [pyOr]
  by_cases hempty : trim row0.previousHash = ""
  · rw [if_pos hempty, if_pos hempty]
    exact shaShaped_pyLower genesis_shaped
  · rw [if_neg hempty, if_neg hempty]

/-- Witness for C3: the first record of a concrete build whose first
row supplies no `PreviousHash` gets the genesis constant. -/
theorem C3_genesis_witness :
    recA.previousHash = if trim rowA.previousHash = "" then GENESIS_HASH
      else pyLower (trim rowA.previousHash) :=
  C3_genesis cfgPlain id qrAll REQUIRED_COLUMNS [rowA, rowB]
    [Effect.writeCSV "out.csv"] outAB rowA recA build_AB_eq rfl rfl

/-- C5: A successful build has pairwise-distinct `current_hash` values,
and in particular no two of its records agree on `cert_id`,
`recipient_name`, `course_title`, `date_issued` and `previous_hash`;
conversely a `DuplicateHash` failure at row `i` means the rows before
`i` linked cleanly, and the hash computed for row `i` from its
normalized fields and the last prefix record's `current_hash` already
occurred in the prefix (the error carries that row and hash). -/
theorem C5_duplicate_rejection :
    (∀ (cfg : Config) (ab : String → String) (qk : Nat → Bool) (fns : List String)
       (rows : List InputRow) (evts : List Effect) (out : BuildOutput),
       chainCertificates cfg ab qk fns rows = (evts, .ok out) →
       (out.records.map (fun x => x.currentHash)).Nodup ∧
       (∀ j k a b, out.records.get? j = some a → out.records.get? k = some b → j ≠ k →
         a.certID = b.certID → a.recipientName = b.recipientName →
         a.courseTitle = b.courseTitle → a.dateIssued = b.dateIssued →
         a.previousHash ≠ b.previousHash)) ∧
    (∀ (cfg : Config) (ab : String → String) (qk : Nat → Bool) (fns : List String)
       (rows : List InputRow) (evts : List Effect) (i : Nat) (hsh : String),
       chainCertificates cfg ab qk fns rows = (evts, .error (.duplicateHash i hsh)) →
       ∃ recsP row rlast d,
         buildLoop cfg ab qk 0 [] none (rows.take i) = (evts, .ok recsP) ∧
         rows.get? i = some row ∧
         hsh ∈ recsP.map (fun x => x.currentHash) ∧
         recsP.getLast? = some rlast ∧
         normalizeDate row.dateIssued = some d ∧
         hsh = sha256Hex (concatFields (trim row.certID) (trim row.recipientName)
           (trim row.courseTitle) d rlast.currentHash)) := by
  constructor
  · intro cfg ab qk fns rows evts out h
    obtain ⟨-, -, levts, hloop, -, -, -⟩ := chainCertificates_ok h
    obtain ⟨-, h2, -, -, h5, -⟩ :=
      buildLoop_ok_inv cfg ab qk rows 0 [] none levts out.records hloop
    refine ⟨h5, ?_⟩
    intro j k a b hj hk hjk e1 e2 e3 e4 e5
    have hha := (h2 j a hj).1
    have hhb := (h2 k b hk).1
    have : a.currentHash = b.currentHash := by
      rw [hha, hhb, e1, e2, e3, e4, e5]
    exact map_nodup_get?_ne h5 hj hk hjk this
  · intro cfg ab qk fns rows evts i hsh h
    rcases chainCertificates_error h with ⟨he, -⟩ | ⟨he, -⟩ | hloop
    · exact absurd he (by simp)
    · exact absurd he (by simp)
    · obtain ⟨m, recsP, row, hrow, htake, hstep⟩ :=
        buildLoop_error_split cfg ab qk rows 0 [] none evts _ hloop
      rcases stepRow_error_cases hstep with ⟨he, -⟩ | ⟨d, -, he, -⟩ | ⟨d, hnd, -, he, hmem⟩
      · exact absurd he (by simp)
      · exact absurd he (by simp)
      · injection he with him hhsh
        have hm : m = i := by omega
        subst hm
        rw [List.append_nil] at hmem
        have hmem2 : hsh ∈ recsP.map (fun x => x.currentHash) := by
          rw [hhsh]
          exact List.mem_reverse.mp hmem
        have hne : recsP ≠ [] := by
          intro hnil
          rw [hnil] at hmem2
          exact absurd hmem2 (by simp)
        cases hgl : recsP.getLast? with
        | none =>
          have hsome := List.getLast?_isSome (l := recsP)
          rw [hgl] at hsome
          simp [hne] at hsome
        | some rlast =>
          obtain ⟨-, hinv2, -, -, -, -⟩ :=
            buildLoop_ok_inv cfg ab qk (rows.take m) 0 [] none evts recsP htake
          have hrlmem : rlast ∈ recsP := by
            obtain ⟨hne', heq⟩ :=
              List.mem_getLast?_eq_getLast (l := recsP) (x := rlast) (by rw [hgl]; rfl)
            rw [heq]
            exact List.getLast_mem hne'
          obtain ⟨jl, hjl⟩ := List.mem_iff_get?.mp hrlmem
          have hshape : shaShaped rlast.currentHash := by
            rw [(hinv2 jl rlast hjl).1]
            exact sha256Hex_shaped _
          refine ⟨recsP, row, rlast, d, htake, hrow, hmem2, hgl, hnd, ?_⟩
          rw [hhsh]
          have hcand : pyLower (candOf (match recsP.getLast? with
              | some r => some r.currentHash
              | none => (none : Option String)) row) = rlast.currentHash := by
            rw [hgl]
            exact candOf_some _ _ hshape
          rw [hcand]

/-- Witness for C5: the hashes of a concrete two-row build are
pairwise distinct. -/
theorem C5_duplicate_rejection_witness :
    (outAB.records.map (fun x => x.currentHash)).Nodup :=
  (C5_duplicate_rejection.1 cfgPlain id qrAll REQUIRED_COLUMNS [rowA, rowB]
    [Effect.writeCSV "out.csv"] outAB build_AB_eq).1

/-- C6: When a build fails with any fatal error, none of the three
output artifacts (chained CSV, JSON export, hash index) is written:
the event trace of a failing build contains no write event. -/
theorem C6_atomic_failure (cfg : Config) (ab : String → String) (qk : Nat → Bool)
    (fns : List String) (rows : List InputRow) (evts : List Effect) (e : ChainError)
    (h : chainCertificates cfg ab qk fns rows = (evts, .error e)) :
    ∀ p, Effect.writeCSV p ∉ evts ∧ Effect.writeJSON p ∉ evts ∧
      Effect.writeIndex p ∉ evts := by
  have hdl : ∀ ev ∈ evts, ev.isDownload = true := by
    rcases chainCertificates_error h with ⟨-, rfl⟩ | ⟨-, rfl⟩ | hloop
    · intro ev hev
      exact absurd hev (List.not_mem_nil ev)
    · intro ev hev
      exact absurd hev (List.not_mem_nil ev)
    · intro ev hev
      have h1 : (buildLoop cfg ab qk 0 [] none rows).1 = evts := congrArg Prod.fst hloop
      apply buildLoop_events cfg ab qk rows 0 [] none
      rw [h1]
      exact hev
  intro p
  refine ⟨fun hmem => ?_, fun hmem => ?_, fun hmem => ?_⟩ <;>
    simpa [Effect.isDownload] using hdl _ hmem

/-- Witness for C6: a concrete failing build whose trace holds two QR
downloads but no artifact write. -/
theorem C6_atomic_failure_witness :
    Effect.writeCSV "o.csv"
        ∉ [Effect.downloadQR urlQRA "qr/C1.png", Effect.downloadQR urlQRB "qr/C2.png"] ∧
    Effect.writeJSON "c.json"
        ∉ [Effect.downloadQR urlQRA "qr/C1.png", Effect.downloadQR urlQRB "qr/C2.png"] ∧
    Effect.writeIndex "h.json"
        ∉ [Effect.downloadQR urlQRA "qr/C1.png", Effect.downloadQR urlQRB "qr/C2.png"] := by
  have hc := C6_atomic_failure cfgFull id qrAll REQUIRED_COLUMNS [rowA, rowB, rowBadDate]
    [Effect.downloadQR urlQRA "qr/C1.png", Effect.downloadQR urlQRB "qr/C2.png"]
    (.invalidDate "2024-13-01") build_fail_eq
  exact ⟨(hc "o.csv").1, (hc "c.json").2.1, (hc "h.json").2.2⟩

set_option maxRecDepth 1000000 in
/-- C7 counterexample: the invalid-date error does not name the
offending row.  A bad date in row 0 of a one-row input and the same bad
date in row 2 of a three-row input abort with the identical error
value, whose rendered message contains only the trimmed value. -/
theorem C7_invalid_date_counterexample :
    chainRecords [{ rowA with dateIssued := "2024-13-01" }]
      = .error (.invalidDate "2024-13-01") ∧
    chainRecords [rowA, rowB, rowBadDate] = .error (.invalidDate "2024-13-01") ∧
    (ChainError.invalidDate "2024-13-01").message
      = "DateIssued must be ISO format YYYY-MM-DD, got: \x272024-13-01\x27" :=
  ⟨rfl, rfl, rfl⟩

/-- C7 (amended): when a row's `DateIssued` fails canonical parsing,
the build aborts with `invalidDate s` where `s` is the trimmed
offending value of some failing row; the message names that value but
no row index. -/
theorem C7_invalid_date_amended (cfg : Config) (ab : String → String) (qk : Nat → Bool)
    (fns : List String) (rows : List InputRow) (evts : List Effect) (s : String)
    (h : chainCertificates cfg ab qk fns rows = (evts, .error (.invalidDate s))) :
    (∃ j row, rows.get? j = some row ∧ normalizeDate row.dateIssued = none ∧
      s = trim row.dateIssued) ∧
    (ChainError.invalidDate s).message
      = "DateIssued must be ISO format YYYY-MM-DD, got: \x27" ++ s ++ "\x27" := by
  constructor
  · rcases chainCertificates_error h with ⟨he, -⟩ | ⟨he, -⟩ | hloop
    · exact absurd he (by simp)
    · exact absurd he (by simp)
    · obtain ⟨m, recsP, row, hrow, -, hstep⟩ :=
        buildLoop_error_split cfg ab qk rows 0 [] none evts _ hloop
      rcases stepRow_error_cases hstep with ⟨he, hnone⟩ | ⟨d, -, he, -⟩ | ⟨d, -, -, he, -⟩
      · injection he with he
        exact ⟨m, row, hrow, hnone, he⟩
      · exact absurd he (by simp)
      · exact absurd he (by simp)
  · rfl

/-- Witness for C7's amended claim at a concrete failing build. -/
theorem C7_invalid_date_amended_witness :
    (∃ j row, ([rowA, rowB, rowBadDate] : List InputRow).get? j = some row ∧
      normalizeDate row.dateIssued = none ∧ "2024-13-01" = trim row.dateIssued) ∧
    (ChainError.invalidDate "2024-13-01").message
      = "DateIssued must be ISO format YYYY-MM-DD, got: \x27" ++ "2024-13-01" ++ "\x27" :=
  C7_invalid_date_amended cfgFull id qrAll REQUIRED_COLUMNS [rowA, rowB, rowBadDate]
    [Effect.downloadQR urlQRA "qr/C1.png", Effect.downloadQR urlQRB "qr/C2.png"]
    "2024-13-01" build_fail_eq

/-- C8: After a successful build of N records the hash index has
exactly N entries, mapping each record's `current_hash` to its
zero-based position (well defined since the hashes are pairwise
distinct). -/
theorem C8_index_completeness (cfg : Config) (ab : String → String) (qk : Nat → Bool)
    (fns : List String) (rows : List InputRow) (evts : List Effect) (out : BuildOutput)
    (h : chainCertificates cfg ab qk fns rows = (evts, .ok out)) :
    out.index.length = out.records.length ∧
    ∀ j r, out.records.get? j = some r → out.index.lookup r.currentHash = some j := by
  obtain ⟨-, -, levts, hloop, -, -, hidx⟩ := chainCertificates_ok h
  obtain ⟨-, -, -, -, h5, -⟩ :=
    buildLoop_ok_inv cfg ab qk rows 0 [] none levts out.records hloop
  constructor
  · rw [hidx, buildIndex_length]
  · intro j r hj
    rw [hidx]
    exact buildIndex_lookup h5 hj

/-- Witness for C8 at a concrete two-row build. -/
theorem C8_index_completeness_witness :
    outAB.index.length = outAB.records.length ∧
    outAB.index.lookup recB.currentHash = some 1 :=
  ⟨(C8_index_completeness cfgPlain id qrAll REQUIRED_COLUMNS [rowA, rowB]
      [Effect.writeCSV "out.csv"] outAB build_AB_eq).1,
   (C8_index_completeness cfgPlain id qrAll REQUIRED_COLUMNS [rowA, rowB]
      [Effect.writeCSV "out.csv"] outAB build_AB_eq).2 1 recB rfl⟩

/-- C9 counterexample: in a build whose third row fails validation, the
QR downloads for the first two records were already executed — the
failing build's trace contains their download events, refuting "no
enrichment action is executed for any record of a failing build". -/
theorem C9_enrichment_counterexample :
    (chainCertificates cfgFull id qrAll REQUIRED_COLUMNS [rowA, rowB, rowBadDate]).2
      = .error (.invalidDate "2024-13-01") ∧
    Effect.downloadQR urlQRA "qr/C1.png"
      ∈ (chainCertificates cfgFull id qrAll REQUIRED_COLUMNS [rowA, rowB, rowBadDate]).1 ∧
    Effect.downloadQR urlQRB "qr/C2.png"
      ∈ (chainCertificates cfgFull id qrAll REQUIRED_COLUMNS [rowA, rowB, rowBadDate]).1 := by
  refine ⟨?_, ?_, ?_⟩
  · rw [build_fail_eq]
  · rw [build_fail_eq]
    show Effect.downloadQR urlQRA "qr/C1.png"
      ∈ [Effect.downloadQR urlQRA "qr/C1.png", Effect.downloadQR urlQRB "qr/C2.png"]
    exact List.mem_cons_self _ _
  · rw [build_fail_eq]
    show Effect.downloadQR urlQRB "qr/C2.png"
      ∈ [Effect.downloadQR urlQRA "qr/C1.png", Effect.downloadQR urlQRB "qr/C2.png"]
    exact List.mem_cons_of_mem _ (List.mem_cons_self _ _)

/-- C9 (amended): enrichment runs per record inside the linking loop,
immediately after that record validates; when a build fails, the
events already emitted are exactly those of the longest cleanly linked
prefix of the input, all of them QR download attempts, and no chain
artifact is written. -/
theorem C9_enrichment_amended (cfg : Config) (ab : String → String) (qk : Nat → Bool)
    (fns : List String) (rows : List InputRow) (evts : List Effect) (e : ChainError)
    (h : chainCertificates cfg ab qk fns rows = (evts, .error e)) :
    (∀ ev ∈ evts, ev.isDownload = true) ∧
    ∃ m recsP, buildLoop cfg ab qk 0 [] none (rows.take m) = (evts, .ok recsP) := by
  rcases chainCertificates_error h with ⟨-, rfl⟩ | ⟨-, rfl⟩ | hloop
  · exact ⟨by simp, 0, [], by rw [List.take_zero, buildLoop_nil]⟩
  · exact ⟨by simp, 0, [], by rw [List.take_zero, buildLoop_nil]⟩
  · constructor
    · intro ev hev
      have h1 : (buildLoop cfg ab qk 0 [] none rows).1 = evts := congrArg Prod.fst hloop
      apply buildLoop_events cfg ab qk rows 0 [] none
      rw [h1]
      exact hev
    · obtain ⟨m, recsP, row, -, htake, -⟩ :=
        buildLoop_error_split cfg ab qk rows 0 [] none evts _ hloop
      exact ⟨m, recsP, htake⟩

/-- Witness for C9's amended claim at a concrete failing build. -/
theorem C9_enrichment_amended_witness :
    (Effect.downloadQR urlQRA "qr/C1.png").isDownload = true ∧
    ∃ m recsP, buildLoop cfgFull id qrAll 0 [] none
        (([rowA, rowB, rowBadDate] : List InputRow).take m)
      = ([Effect.downloadQR urlQRA "qr/C1.png", Effect.downloadQR urlQRB "qr/C2.png"],
         .ok recsP) :=
  ⟨(C9_enrichment_amended cfgFull id qrAll REQUIRED_COLUMNS [rowA, rowB, rowBadDate]
      [Effect.downloadQR urlQRA "qr/C1.png", Effect.downloadQR urlQRB "qr/C2.png"]
      (.invalidDate "2024-13-01") build_fail_eq).1 _ (List.mem_cons_self _ _),
   (C9_enrichment_amended cfgFull id qrAll REQUIRED_COLUMNS [rowA, rowB, rowBadDate]
      [Effect.downloadQR urlQRA "qr/C1.png", Effect.downloadQR urlQRB "qr/C2.png"]
      (.invalidDate "2024-13-01") build_fail_eq).2⟩

/-- C10: `_normalize_date` accepts non-zero-padded dates matching the
`%Y-%m-%d` pattern and stores the canonical zero-padded rendering, so
two inputs differing only in date padding produce identical builds. -/
theorem C10_date_normalization :
    normalizeDate "2024-1-5" = some "2024-01-05" ∧
    normalizeDate "2024-01-05" = some "2024-01-05" ∧
    (∀ (cfg : Config) (ab : String → String) (qk : Nat → Bool) (fns : List String)
       (rows : List InputRow) (j : Nat) (row : InputRow) (v cd : String),
       rows.get? j = some row → normalizeDate row.dateIssued = some cd →
       normalizeDate v = some cd →
       chainCertificates cfg ab qk fns (rows.set j { row with dateIssued := v }) =
         chainCertificates cfg ab qk fns rows) := by
  refine ⟨rfl, rfl, ?_⟩
  intro cfg ab qk fns rows j row v cd hj hrow hv
  unfold chainCertificates
  by_cases hm : REQUIRED_COLUMNS.filter (fun c => !(fns.contains c)) ≠ []
  · rw [if_pos hm, if_pos hm]
  · rw [if_neg hm, if_neg hm]
    by_cases hr : rows = []
    · subst hr
      simp at hj
    · have hr' : rows.set j { row with dateIssued := v } ≠ [] := by
        intro hh
        apply hr
        have := congrArg List.length hh
        rw [List.length_set] at this
        exact List.length_eq_zero.mp this
      rw [if_neg hr', if_neg hr]
      dsimp only
      rw [buildLoop_set_date cfg ab qk rows j 0 [] none row v cd hj hrow hv]

/-- Witness for C10: replacing the first row's date `2024-01-10` by
`2024-1-10` leaves a concrete two-row build unchanged. -/
theorem C10_date_normalization_witness :
    chainCertificates cfgPlain id qrAll REQUIRED_COLUMNS
      (([rowA, rowB] : List InputRow).set 0 { rowA with dateIssued := "2024-1-10" }) =
    chainCertificates cfgPlain id qrAll REQUIRED_COLUMNS [rowA, rowB] :=
  C10_date_normalization.2.2 cfgPlain id qrAll REQUIRED_COLUMNS [rowA, rowB] 0 rowA
    "2024-1-10" "2024-01-10" rfl rfl rfl

set_option maxRecDepth 1000000 in
/-- C4 (code refutation): the first-row `PreviousHash` value
`"0x" + 62 zeros` is 64 characters long but is not a string of 64 hex
digits, yet `_is_hex64` accepts it (Python `int(s, 16)` tolerates the
`0x` prefix) and the build succeeds instead of failing with an
invalid-hash-format error. -/
theorem C4_hex_prefix_accepted :
    plainHex64 (pyLower (trim rowHexPrefix.previousHash)) = false ∧
    (pyLower (trim rowHexPrefix.previousHash)).length = 64 ∧
    isHex64 (pyLower (trim rowHexPrefix.previousHash)) = true ∧
    ∃ out, (chainCertificates cfgPlain id qrAll REQUIRED_COLUMNS [rowHexPrefix]).2
      = .ok out := by
  refine ⟨rfl, rfl, rfl, ⟨_, rfl⟩⟩

end CertChain
